import Mathlib

/-!
goDogstatsd: a shallow embedding of the aggregation agent

The development follows the two Go packages of the repository:

* `aggregator/aggregator.go`: the four metric variants (`gauge`, `histogram`,
  `counter`, `set`), the `Aggregator` store with `Sample_metric`, `Flush` and
  `CreateMetric`;
* `dogstatsd.go`: the line parser `parse_metric_packet` and the per-datagram
  loop body of `run_packet_handler`.

Conventions of the embedding.

* A Go `[]byte` and a Go `string` are both a `Bytes` (a list of bytes).
* A run-time panic of the Go program is a `Fault`; a function that can panic
  returns `Except Fault _`.  An unrecovered panic ends the process, so no state
  is carried by a fault.
* A Go `error` result is an `Option Err`  (`none` is Go's `nil`).
* `int64` values are integers wrapped by `wrap64` where Go arithmetic wraps.
* `float64` values are IEEE 754 binary64 values (`Float64`), with the
  round-to-nearest-even arithmetic the code uses (`/`, conversion to `int64`,
  `strconv.ParseFloat`).
* A Go `map` is a reference: its contents live in a `Heap` and the `Aggregator`
  struct holds the address.  Methods with a value receiver get the struct by
  value, as in Go.
* Calls to `log` are not part of the state and are left out.
-/

namespace GoDogstatsd

/-! ## Bytes, faults, errors -/

/-- A Go byte slice or string. -/
abbrev Bytes := List UInt8

/-- The bytes of an ASCII string literal. -/
def ascii (s : String) : Bytes := s.toList.map (fun c => c.toNat.toUInt8)

/-- Run-time panics the code can raise. -/
inductive Fault
  /-- index out of range -/
  | indexOutOfRange
  /-- invalid memory address or nil pointer dereference -/
  | nilDereference
  deriving DecidableEq, Repr

/-- Values of Go's `error` type built by the code. -/
inductive Err
  /-- `gauge.sample`: "Value %s can't be parsed as float: %s" -/
  | gaugeValueNotFloat (value : Bytes)
  /-- `histogram.sample`, `counter.sample`: "Can't parse value %s as float: %s" -/
  | valueNotFloat (value : Bytes)
  /-- `CreateMetric`: "Unsupported metric type" -/
  | unsupportedMetricType
  /-- `Flush`: "Could not serialize payload to JSON: %s" -/
  | couldNotSerialize
  deriving DecidableEq, Repr

deriving instance DecidableEq for Except

/-! ## int64 -/

/-- Two's complement wrap-around of an integer into the `int64` range. -/
def wrap64 (z : Int) : Int := (z + 2 ^ 63) % 2 ^ 64 - 2 ^ 63

/-! ## float64 -/

/-- An IEEE 754 binary64 value.  `finite neg m e` is `(-1)^neg * m * 2^e` with
`m < 2^53` and `-1074 ≤ e ≤ 971`, where `2^52 ≤ m` unless `e = -1074`
(subnormal numbers and zero). -/
inductive Float64
  | finite (neg : Bool) (m : Nat) (e : Int)
  | inf (neg : Bool)
  | nan
  deriving DecidableEq, Repr

namespace Float64

/-- The float64 zero value `+0`. -/
def zero : Float64 := finite false 0 (-1074)

/-- The float64 constant `1`. -/
def one : Float64 := finite false (2 ^ 52) (-52)

/-- Number of binary digits of a natural number (`0` for `0`). -/
def bitLength : Nat → Nat → Nat
  | 0, _ => 0
  | fuel + 1, n => if n = 0 then 0 else 1 + bitLength fuel (n / 2)

/-- The exponent `floor (log2 (a / b))` for `a, b > 0`. -/
def floorLog2 (a b : Nat) : Int :=
  let k : Int := (bitLength a a : Int) - (bitLength b b : Int)
  let ge : Bool := if 0 ≤ k then decide (b * 2 ^ k.toNat ≤ a) else decide (b ≤ a * 2 ^ (-k).toNat)
  if ge then k else k - 1

/-- The binary64 value nearest to `(-1)^neg * a / b` (`b > 0`), ties to even;
an infinity when the rounded value exceeds the largest finite binary64. -/
def ofRatio (neg : Bool) (a b : Nat) : Float64 :=
  if a = 0 then finite neg 0 (-1074)
  else
    let p : Int := max (floorLog2 a b - 52) (-1074)
    let num : Nat := if p < 0 then a * 2 ^ (-p).toNat else a
    let den : Nat := if p < 0 then b else b * 2 ^ p.toNat
    let q := num / den
    let r := num % den
    let m := if 2 * r < den then q else if den < 2 * r then q + 1
      else if q % 2 = 0 then q else q + 1
    let m1 : Nat := if m = 2 ^ 53 then 2 ^ 52 else m
    let p1 : Int := if m = 2 ^ 53 then p + 1 else p
    if 971 < p1 then inf neg else finite neg m1 p1

/-- Is the value neither an infinity nor a NaN. -/
def isFinite : Float64 → Bool
  | finite _ _ _ => true
  | _ => false

/-- IEEE 754 division `x / y`. -/
def div : Float64 → Float64 → Float64
  | nan, _ => nan
  | _, nan => nan
  | inf _, inf _ => nan
  | inf n, finite n2 _ _ => inf (xor n n2)
  | finite n _ _, inf n2 => finite (xor n n2) 0 (-1074)
  | finite n1 m1 e1, finite n2 m2 e2 =>
    if m2 = 0 then (if m1 = 0 then nan else inf (xor n1 n2))
    else ofRatio (xor n1 n2) (m1 * 2 ^ (e1 - e2).toNat) (m2 * 2 ^ (e2 - e1).toNat)

/-- Go's conversion `int64(x)`: the fraction is discarded (truncation towards
zero).  When the value is not representable the Go specification leaves the
result to the implementation; the value used is the one of amd64,
`-2^63`. -/
def toInt64 : Float64 → Int
  | finite neg m e =>
    let t : Nat := if 0 ≤ e then m * 2 ^ e.toNat else m / 2 ^ (-e).toNat
    let z : Int := if neg then -(t : Int) else (t : Int)
    if -(2 ^ 63) ≤ z ∧ z < 2 ^ 63 then z else -(2 ^ 63)
  | _ => -(2 ^ 63)

end Float64

/-! ## strconv.ParseFloat -/

/-- Value of a decimal digit byte. -/
def digitVal (b : UInt8) : Option Nat :=
  if 48 ≤ b.toNat ∧ b.toNat ≤ 57 then some (b.toNat - 48) else none

/-- Reads a maximal run of decimal digits: the value read so far, the number
of digits read, and the rest of the input. -/
def readDigits : Bytes → Nat → Nat → Nat × Nat × Bytes
  | [], acc, n => (acc, n, [])
  | b :: bs, acc, n =>
    match digitVal b with
    | some d => readDigits bs (acc * 10 + d) (n + 1)
    | none => (acc, n, b :: bs)

/-- ASCII lower-casing of a byte. -/
def lowerByte (b : UInt8) : UInt8 :=
  if 65 ≤ b.toNat ∧ b.toNat ≤ 90 then (b.toNat + 32).toUInt8 else b

/-- The optional decimal exponent `e[+-]ddd` that ends a number: `some x` for
the exponent read (`0` when the input is empty), `none` on a syntax error. -/
def readExponent : Bytes → Option Int
  | [] => some 0
  | c :: rest =>
    if lowerByte c = 101 then
      let neg : Bool := match rest with
        | 45 :: _ => true
        | _ => false
      let rest1 : Bytes := match rest with
        | 43 :: r => r
        | 45 :: r => r
        | r => r
      match readDigits rest1 0 0 with
      | (x, n, []) => if n = 0 then none else some (if neg then -(x : Int) else (x : Int))
      | _ => none
    else none

/-- The decimal numbers `ddd`, `ddd.ddd`, `.ddd`, `ddd.`, each with an
optional exponent: mantissa digits as a natural number and the power of ten
that scales it. -/
def readDecimal (s : Bytes) : Option (Nat × Int) :=
  match readDigits s 0 0 with
  | (ip, n1, 46 :: rest) =>
    match readDigits rest ip 0 with
    | (mant, n2, rest2) =>
      if n1 + n2 = 0 then none
      else (readExponent rest2).map (fun x => (mant, x - (n2 : Int)))
  | (ip, n1, rest) =>
    if n1 = 0 then none else (readExponent rest).map (fun x => (ip, x))

/-- The function `strconv.ParseFloat(s, 64)`: `some f` when it returns `f` with a
nil error, `none` when it returns an error (syntax error, or a value out of
the range of float64).  The syntax is an optional sign followed by a decimal
number with optional fraction and exponent, or by `inf`, `infinity`
(case-insensitive); `nan` without sign.  The hexadecimal mantissas and digit
separators accepted from Go 1.13 on are reported as syntax errors, as in the
Go releases this code was written for. -/
def ParseFloat (s : Bytes) : Option Float64 :=
  let neg : Bool := match s with
    | 45 :: _ => true
    | _ => false
  let body : Bytes := match s with
    | 43 :: r => r
    | 45 :: r => r
    | r => r
  let low := body.map lowerByte
  if low = ascii "inf" ∨ low = ascii "infinity" then some (Float64.inf neg)
  else if s.map lowerByte = ascii "nan" then some Float64.nan
  else
    match readDecimal body with
    | none => none
    | some (mant, x) =>
      let f := if 0 ≤ x then Float64.ofRatio neg (mant * 10 ^ x.toNat) 1
        else Float64.ofRatio neg mant (10 ^ (-x).toNat)
      if f.isFinite then some f else none

/-! ## Library functions on byte strings -/

/-- The function `bytes.HasPrefix`. -/
def HasPrefix (s pre : Bytes) : Bool := pre.isPrefixOf s

/-- Cuts `s` at the first occurrence of the byte `sep`: the part before it and
the part after it. -/
def cut : Bytes → UInt8 → Option (Bytes × Bytes)
  | [], _ => none
  | b :: bs, sep =>
    if b = sep then some ([], bs)
    else (cut bs sep).map (fun r => (b :: r.1, r.2))

/-- The function `bytes.Split(s, sep)` for a separator `sep` of one byte (every separator
of the program is one byte long): the pieces of `s` between the occurrences
of `sep`; one piece, `s` itself, when `sep` does not occur. -/
def Split : Bytes → UInt8 → List Bytes
  | [], _ => [[]]
  | b :: bs, sep =>
    if b = sep then [] :: Split bs sep
    else
      match Split bs sep with
      | [] => [[b]]
      | x :: xs => (b :: x) :: xs

/-- The function `bytes.SplitN(s, sep, n)` for `n ≥ 0` and a separator of one byte: at
most `n` pieces, the last one being the unsplit remainder. -/
def SplitN : Bytes → UInt8 → Nat → List Bytes
  | _, _, 0 => []
  | s, _, 1 => [s]
  | s, sep, n + 2 =>
    match cut s sep with
    | none => [s]
    | some (before, after) => before :: SplitN after sep (n + 1)

/-- The function `strings.Join(a, sep)`. -/
def Join : List Bytes → Bytes → Bytes
  | [], _ => []
  | [x], _ => x
  | x :: y :: rest, sep => x ++ sep ++ Join (y :: rest) sep

/-- Go's `<=` on strings: byte-wise lexicographic order. -/
def stringLE : Bytes → Bytes → Bool
  | [], _ => true
  | _ :: _, [] => false
  | a :: as, b :: bs => a.toNat < b.toNat || (a.toNat == b.toNat && stringLE as bs)

/-- The function `sort.Strings`: the strings in increasing order.  (The order is total, so
the result does not depend on the sorting algorithm.) -/
def sort_Strings (a : List Bytes) : List Bytes :=
  List.insertionSort (fun x y => stringLE x y = true) a

/-- An indexed read `a[i]` of a slice. -/
def index {α : Type} (a : List α) (i : Nat) : Except Fault α :=
  match a.get? i with
  | some x => .ok x
  | none => .error Fault.indexOutOfRange

/-- An indexed write `a[i] = v` of a slice (of length `a.length`, whatever its
capacity). -/
def setIndex {α : Type} (a : List α) (i : Nat) (v : α) : Except Fault (List α) :=
  if i < a.length then .ok (a.set i v) else .error Fault.indexOutOfRange

/-! ## aggregator/aggregator.go: records and metric variants -/

/-- The constant `MAX_STORED_HIST_SAMPLE`. -/
def MAX_STORED_HIST_SAMPLE : Nat := 1000

/-- The struct `Context`. -/
structure Context where
  Metric_name : Bytes
  Tag_string : Bytes
  deriving DecidableEq, Repr

/-- A value stored in an `interface{}` slot of a point. -/
inductive Value
  | float64 (f : Float64)
  | int64 (i : Int)
  | int (i : Int)
  deriving DecidableEq, Repr

/-- The struct `formattedMetric`.  A point `[2]interface{}` is the pair of its
timestamp (always an `int64`) and its value. -/
structure formattedMetric where
  Metric : Bytes
  Points : List (Int × Value)
  Tags : List Bytes
  Host : Bytes
  Metric_type : Bytes
  Interval : Int
  deriving DecidableEq, Repr

/-- The struct `gauge`. -/
structure gauge where
  name : Bytes
  tags : List Bytes
  value : Float64
  deriving DecidableEq, Repr

def newGauge (name : Bytes) (tags : List Bytes) : gauge :=
  { name := name, tags := tags, value := Float64.zero }

/-- The method `(*gauge).sample`: the gauge after the call and the error returned. -/
def gauge.sample (m : gauge) (value : Bytes) (_sample_rate : Float64) : gauge × Option Err :=
  match ParseFloat value with
  | none => (m, some (Err.gaugeValueNotFloat value))
  | some parsed_value => ({ m with value := parsed_value }, none)

def gauge.flush (m : gauge) (timestamp : Int) (interval : Int) : formattedMetric :=
  { Metric := m.name
    Points := [(timestamp, Value.float64 m.value)]
    Tags := m.tags
    Host := ascii "myhost"
    Metric_type := ascii "gauge"
    Interval := interval }

/-- The struct `histogram`; `samples` is the slice up to its length (its
capacity is `MAX_STORED_HIST_SAMPLE`). -/
structure histogram where
  name : Bytes
  tags : List Bytes
  count : Int
  samples : List Float64
  deriving DecidableEq, Repr

def newHistogram (name : Bytes) (tags : List Bytes) : histogram :=
  { name := name, tags := tags, count := 0, samples := [] }

/-- The method `(*histogram).sample`. -/
def histogram.sample (m : histogram) (value : Bytes) (sample_rate : Float64) :
    Except Fault (histogram × Option Err) :=
  match ParseFloat value with
  | none => .ok (m, some (Err.valueNotFloat value))
  | some float_value =>
    let m1 := { m with count := wrap64 (m.count + (Float64.div Float64.one sample_rate).toInt64) }
    if m1.samples.length < MAX_STORED_HIST_SAMPLE then
      match setIndex m1.samples m1.samples.length float_value with
      | .error f => .error f
      | .ok samples => .ok ({ m1 with samples := samples }, none)
    else .ok (m1, none)

/-- The method `histogram.flush`: the zero value of `formattedMetric`. -/
def histogram.flush (_m : histogram) (_timestamp : Int) (_interval : Int) : formattedMetric :=
  { Metric := [], Points := [], Tags := [], Host := [], Metric_type := [], Interval := 0 }

/-- The struct `counter`. -/
structure counter where
  name : Bytes
  tags : List Bytes
  count : Int
  deriving DecidableEq, Repr

def newCounter (name : Bytes) (tags : List Bytes) : counter :=
  { name := name, tags := tags, count := 0 }

/-- The method `(*counter).sample`. -/
def counter.sample (m : counter) (value : Bytes) (sample_rate : Float64) : counter × Option Err :=
  match ParseFloat value with
  | none => (m, some (Err.valueNotFloat value))
  | some int_value =>
    ({ m with count := wrap64 (m.count + (Float64.div int_value sample_rate).toInt64) }, none)

def counter.flush (m : counter) (timestamp : Int) (interval : Int) : formattedMetric :=
  { Metric := m.name
    Points := [(timestamp, Value.int64 m.count)]
    Tags := m.tags
    Host := ascii "myhost"
    Metric_type := ascii "counter"
    Interval := interval }

/-- The struct `set`; `values` lists the keys of the Go map `map[string]bool`
(every stored value is `true`), without repetition. -/
structure set where
  name : Bytes
  tags : List Bytes
  values : List Bytes
  deriving DecidableEq, Repr

def newSet (name : Bytes) (tags : List Bytes) : set :=
  { name := name, tags := tags, values := [] }

/-- The method `(*set).sample`: `m.values[string(value)] = true`. -/
def set.sample (m : set) (value : Bytes) (_sample_rate : Float64) : set × Option Err :=
  ({ m with values := if value ∈ m.values then m.values else m.values ++ [value] }, none)

def set.flush (m : set) (timestamp : Int) (interval : Int) : formattedMetric :=
  { Metric := m.name
    Points := [(timestamp, Value.int (m.values.length : Int))]
    Tags := m.tags
    Host := ascii "myhost"
    Metric_type := ascii "gauge"
    Interval := interval }

/-- The interface `metric`, closed over its four implementations.  A value of
the interface holds a pointer to the variant's struct; each struct is
referenced from one place only (its map entry), so it is carried by value and
`sample` returns the struct after the call. -/
inductive metric
  | gauge (m : gauge)
  | histogram (m : histogram)
  | counter (m : counter)
  | set (m : set)
  deriving DecidableEq, Repr

def metric.sample (m : metric) (value : Bytes) (sample_rate : Float64) :
    Except Fault (metric × Option Err) :=
  match m with
  | .gauge g => let r := g.sample value sample_rate; .ok (.gauge r.1, r.2)
  | .histogram h =>
    match h.sample value sample_rate with
    | .error f => .error f
    | .ok r => .ok (.histogram r.1, r.2)
  | .counter c => let r := c.sample value sample_rate; .ok (.counter r.1, r.2)
  | .set s => let r := s.sample value sample_rate; .ok (.set r.1, r.2)

def metric.flush (m : metric) (timestamp : Int) (interval : Int) : formattedMetric :=
  match m with
  | .gauge g => g.flush timestamp interval
  | .histogram h => h.flush timestamp interval
  | .counter c => c.flush timestamp interval
  | .set s => s.flush timestamp interval

/-! ## aggregator/aggregator.go: the store -/

/-- The contents of a Go map `map[Context]metric`: its entries, at most one
per key.  (Go iterates over a map in an unspecified order; the list order
stands for one such order.) -/
abbrev MapContents := List (Context × metric)

/-- Map read `m[c]`: the entry and whether it exists. -/
def mapLookup : MapContents → Context → Option metric
  | [], _ => none
  | (k, v) :: rest, c => if k = c then some v else mapLookup rest c

/-- Map write `m[c] = v`. -/
def mapStore : MapContents → Context → metric → MapContents
  | [], c, v => [(c, v)]
  | (k, w) :: rest, c, v => if k = c then (k, v) :: rest else (k, w) :: mapStore rest c v

/-- The maps allocated so far, by address. -/
structure Heap where
  maps : List MapContents
  deriving DecidableEq, Repr

/-- The call `make(map[Context]metric)`: the address of a new, empty map. -/
def Heap.make (h : Heap) : Nat × Heap := (h.maps.length, { maps := h.maps ++ [[]] })

/-- The contents of the map at an address. -/
def Heap.read (h : Heap) (addr : Nat) : MapContents := h.maps.getD addr []

/-- Replaces the contents of the map at an address. -/
def Heap.write (h : Heap) (addr : Nat) (m : MapContents) : Heap := { maps := h.maps.set addr m }

/-- The struct `Aggregator`: its only field is a map, that is, the address of
the map's contents. -/
structure Aggregator where
  metrics_by_context : Nat
  deriving DecidableEq, Repr

def NewAggregator (h : Heap) : Aggregator × Heap :=
  let r := h.make
  ({ metrics_by_context := r.1 }, r.2)

/-- The method `Aggregator.CreateMetric`: the pointer returned (`none` is the nil
pointer) and the error. -/
def Aggregator.CreateMetric (_a : Aggregator) (name : Bytes) (tags : List Bytes)
    (metric_type : Bytes) (_context : Context) : Option metric × Option Err :=
  if metric_type = ascii "g" then (some (metric.gauge (newGauge name tags)), none)
  else if metric_type = ascii "h" ∨ metric_type = ascii "ms" then
    (some (metric.histogram (newHistogram name tags)), none)
  else if metric_type = ascii "c" then (some (metric.counter (newCounter name tags)), none)
  else if metric_type = ascii "s" then (some (metric.set (newSet name tags)), none)
  else (none, some Err.unsupportedMetricType)

/-- The method `Aggregator.Sample_metric` (value receiver `a`): the heap after the call.
The map is written through the reference held by `a`; the struct of an
existing entry is changed in place by `sample`, whatever error it returns. -/
def Aggregator.Sample_metric (a : Aggregator) (h : Heap) (c : Context) (name : Bytes)
    (tags : List Bytes) (metric_type : Bytes) (raw_value : Bytes) (sample_rate : Float64) :
    Except Fault Heap :=
  match mapLookup (h.read a.metrics_by_context) c with
  | some sampled_metric =>
    match sampled_metric.sample raw_value sample_rate with
    | .error f => .error f
    | .ok r => .ok (h.write a.metrics_by_context (mapStore (h.read a.metrics_by_context) c r.1))
  | none =>
    match a.CreateMetric name tags metric_type c with
    | (none, _) => .error Fault.nilDereference
    | (some _, some _) => .ok h
    | (some new_metric, none) =>
      match new_metric.sample raw_value sample_rate with
      | .error f => .error f
      | .ok (sampled_metric, none) =>
        .ok (h.write a.metrics_by_context (mapStore (h.read a.metrics_by_context) c sampled_metric))
      | .ok (_, some _) => .ok h

/-- The JSON object `\x7b"series": [...]\x7d` built by `Flush`, by its contents. -/
structure Payload where
  series : List formattedMetric
  deriving DecidableEq, Repr

/-- Can `encoding/json` encode the value (it rejects the float64 infinities
and NaN). -/
def Value.encodable : Value → Bool
  | .float64 f => f.isFinite
  | _ => true

/-- The function `json.Marshal` on the payload: `none` when it returns an error. -/
def json_Marshal (payload : Payload) : Option Payload :=
  if payload.series.all (fun fm => fm.Points.all (fun pt => pt.2.encodable)) then some payload
  else none

/-- The method `Aggregator.Flush` (value receiver `a`) at time `timestamp = time.Now().Unix()`:
the result returned and the heap after the call.  The statement
`a.metrics_by_context = make(map[Context]metric)` allocates an empty map and
stores its address in `a`, the callee's copy of the struct, which ends with
the call. -/
def Aggregator.Flush (a : Aggregator) (h : Heap) (timestamp : Int) : Except Err Payload × Heap :=
  let interval : Int := 15
  let to_flush : List formattedMetric :=
    (h.read a.metrics_by_context).foldl (fun acc kv => acc ++ [kv.2.flush timestamp interval]) []
  let serialized := json_Marshal { series := to_flush }
  let r := h.make
  let _a : Aggregator := { a with metrics_by_context := r.1 }
  match serialized with
  | none => (.error Err.couldNotSerialize, r.2)
  | some bytes => (.ok bytes, r.2)

/-! ## dogstatsd.go -/

def NEWLINE_SEP : UInt8 := 10
def EVENT_PREFIX : Bytes := ascii "_e"
def SEMI_COLON : UInt8 := 58
def PIPE_SEP : UInt8 := 124
def AROBASE : Bytes := ascii "@"
def POUND_SIGN : Bytes := ascii "#"
def COMA : UInt8 := 44

/-- The package variable `bucket_aggregator = aggregator.NewAggregator()`, set at
program start, in the empty heap. -/
def bucket_aggregator : Aggregator := (NewAggregator { maps := [] }).1

/-- The heap at program start, after the package variables are set. -/
def initialHeap : Heap := (NewAggregator { maps := [] }).2

/-- The store: the contents of the map that `bucket_aggregator` refers to. -/
def store (h : Heap) : MapContents := h.read bucket_aggregator.metrics_by_context

/-- The arguments of a call of `Sample_metric`. -/
structure SampleCall where
  c : Context
  name : Bytes
  tags : List Bytes
  metric_type : Bytes
  raw_value : Bytes
  sample_rate : Float64
  deriving DecidableEq, Repr

/-- One turn of the loop over `data[2:]` in `parse_metric_packet`, on the pair
of `sample_rate` and `byte_tags`. -/
def scanDatum (st : Float64 × List Bytes) (datum : Bytes) : Float64 × List Bytes :=
  if HasPrefix datum AROBASE then
    match ParseFloat (datum.drop 1) with
    | some r => (r, st.2)
    | none => (Float64.one, st.2)
  else if HasPrefix datum POUND_SIGN then (st.1, Split (datum.drop 1) COMA)
  else st

/-- The function `parse_metric_packet` up to its last statement: the arguments it hands
to `Sample_metric`, or the panic it raises before. -/
def parse_metric_packet_call (packet : Bytes) : Except Fault SampleCall :=
  let name_and_data := SplitN packet SEMI_COLON 2
  match index name_and_data 0 with
  | .error f => .error f
  | .ok name =>
    match index name_and_data 1 with
    | .error f => .error f
    | .ok rest =>
      let data := Split rest PIPE_SEP
      match index data 0 with
      | .error f => .error f
      | .ok raw_value =>
        match index data 1 with
        | .error f => .error f
        | .ok metric_type =>
          let st := (data.drop 2).foldl scanDatum (Float64.one, [])
          let tags := sort_Strings st.2
          .ok { c := { Metric_name := name, Tag_string := Join tags (ascii ",") }
                name := name
                tags := tags
                metric_type := metric_type
                raw_value := raw_value
                sample_rate := st.1 }

/-- The function `parse_metric_packet`: the heap after the call. -/
def parse_metric_packet (h : Heap) (packet : Bytes) : Except Fault Heap :=
  match parse_metric_packet_call packet with
  | .error f => .error f
  | .ok k =>
    bucket_aggregator.Sample_metric h k.c k.name k.tags k.metric_type k.raw_value k.sample_rate

/-- The loop over the lines of a datagram in `run_packet_handler`. -/
def handle_lines (h : Heap) : List Bytes → Except Fault Heap
  | [] => .ok h
  | packet :: rest =>
    if HasPrefix packet EVENT_PREFIX then handle_lines h rest
    else
      match parse_metric_packet h packet with
      | .error f => .error f
      | .ok h1 => handle_lines h1 rest

/-- One turn of the loop of `run_packet_handler`, for the datagram `packets` received from
`intake_pipeline`. -/
def run_packet_handler (h : Heap) (packets : Bytes) : Except Fault Heap :=
  handle_lines h (Split packets NEWLINE_SEP)

/-- The call `bucket_aggregator.Flush()` of `run_flusher`. -/
def flush (h : Heap) (timestamp : Int) : Except Err Payload × Heap :=
  bucket_aggregator.Flush h timestamp

/-! ## Lines of the grammar -/

/-- The token `|@sample_rate` of a line, when there is one. -/
def rateToken : Option Bytes → Bytes
  | none => []
  | some r => PIPE_SEP :: (AROBASE ++ r)

/-- The token `|#tag,tag,...` of a line with the given tags; no token for a
line without tags. -/
def tagsToken (tags : List Bytes) : Bytes :=
  if tags = [] then [] else PIPE_SEP :: (POUND_SIGN ++ Join tags [COMA])

/-- The line `name:value|type[|@sample_rate][|#tag,tag,...]`. -/
def metricLine (name value metric_type : Bytes) (rate : Option Bytes) (tags : List Bytes) :
    Bytes :=
  name ++ SEMI_COLON :: (value ++ PIPE_SEP :: (metric_type ++ (rateToken rate ++ tagsToken tags)))

/-- The optional tokens of a line, without the pipes before them. -/
def optionalTokens (rate : Option Bytes) (tags : List Bytes) : List Bytes :=
  (match rate with
    | none => []
    | some r => [AROBASE ++ r]) ++
  (if tags = [] then [] else [POUND_SIGN ++ Join tags [COMA]])

/-- The float64 a line's rate token stands for: `1.0` for a line without the token,
nothing when the token's text is not a float. -/
def writtenRate : Option Bytes → Option Float64
  | none => some Float64.one
  | some r => ParseFloat r

/-- The sample rate a line with the given rate token is sampled at. -/
def rateOf : Option Bytes → Float64
  | none => Float64.one
  | some r =>
    match ParseFloat r with
    | some f => f
    | none => Float64.one

/-! ## Sequences of samples on one variant -/

/-- The counter after the calls `sample(v, rate)` for the pairs of `samples`, in order. -/
def counter.sampleAll (m : counter) (samples : List (Bytes × Float64)) : counter :=
  samples.foldl (fun acc s => (acc.sample s.1 s.2).1) m

/-- The gauge after the calls `sample(v, rate)` for the pairs of `samples`, in order. -/
def gauge.sampleAll (m : gauge) (samples : List (Bytes × Float64)) : gauge :=
  samples.foldl (fun acc s => (acc.sample s.1 s.2).1) m

/-- The set after the calls `sample(v, rate)` for the pairs of `samples`, in order. -/
def set.sampleAll (m : set) (samples : List (Bytes × Float64)) : set :=
  samples.foldl (fun acc s => (acc.sample s.1 s.2).1) m

/-- The rational number a finite float64 stands for (`0` for an infinity or a
NaN). -/
def Float64.toRat : Float64 → ℚ
  | .finite neg m e => (if neg then -1 else 1) * (m : ℚ) * (2 : ℚ) ^ e
  | _ => 0

/-- The float64 value `1.5`. -/
def onePointFive : Float64 := Float64.finite false (3 * 2 ^ 51) (-52)

/-- The float64 value `0.5`. -/
def half : Float64 := Float64.finite false (2 ^ 52) (-53)

/-! ## States used in the concrete evaluations -/

/-- The float64 value `5`. -/
def five : Float64 := Float64.finite false (5 * 2 ^ 50) (-50)

/-- The float64 value `9`. -/
def nine : Float64 := Float64.finite false (9 * 2 ^ 49) (-49)

/-- The context of the metric `x` without tags. -/
def ctxX : Context := { Metric_name := ascii "x", Tag_string := [] }

/-- The heap whose store holds one gauge `x` of the given value. -/
def gaugeHeap (v : Float64) : Heap :=
  { maps := [[(ctxX, metric.gauge { name := ascii "x", tags := [], value := v })]] }

/-- The record a gauge `x` of the given value is flushed to. -/
def gaugeRecord (timestamp : Int) (v : Float64) : formattedMetric :=
  { Metric := ascii "x", Points := [(timestamp, Value.float64 v)], Tags := [],
    Host := ascii "myhost", Metric_type := ascii "gauge", Interval := 15 }

/-- The heap whose store holds one set `x` with the given values. -/
def setHeap (values : List Bytes) : Heap :=
  { maps := [[(ctxX, metric.set { name := ascii "x", tags := [], values := values })]] }

/-- The float64 value `-0.5`. -/
def minusHalf : Float64 := Float64.finite true (2 ^ 52) (-53)

/-- The heap whose store holds one counter `x` of the given count. -/
def counterHeap (count : Int) : Heap :=
  { maps := [[(ctxX, metric.counter { name := ascii "x", tags := [], count := count })]] }

/-- The histogram after the calls `sample(v, rate)` for the pairs of `samples`, in order,
or the panic of the first call that panics. -/
def histogram.sampleAll (m : histogram) : List (Bytes × Float64) → Except Fault histogram
  | [] => .ok m
  | s :: rest =>
    match m.sample s.1 s.2 with
    | .error f => .error f
    | .ok r => histogram.sampleAll r.1 rest

/-- The float64 value `120`. -/
def oneHundredTwenty : Float64 := Float64.finite false (120 * 2 ^ 46) (-46)

/-- The histogram `login.latency` with one buffered value `120` and count 10. -/
def latencyHistogram : histogram :=
  { name := ascii "login.latency", tags := [], count := 10, samples := [oneHundredTwenty] }

/-! ## Stores reached by calls of `Sample_metric` -/

/-- The heap after the calls `bucket_aggregator.Sample_metric(...)` for the argument
records of a list, in order, or the panic of the first call that panics. -/
def sampleCalls (h : Heap) : List SampleCall → Except Fault Heap
  | [] => .ok h
  | k :: rest =>
    match bucket_aggregator.Sample_metric h k.c k.name k.tags k.metric_type k.raw_value
        k.sample_rate with
    | .error f => .error f
    | .ok h1 => sampleCalls h1 rest

/-- The slice `to_flush` that `Flush` builds, before it is serialized. -/
def Aggregator.to_flush (a : Aggregator) (h : Heap) (timestamp : Int) : List formattedMetric :=
  (h.read a.metrics_by_context).foldl (fun acc kv => acc ++ [kv.2.flush timestamp 15]) []

/-- The field `name` of the struct behind a `metric`. -/
def metric.name : metric → Bytes
  | .gauge g => g.name
  | .histogram hg => hg.name
  | .counter c => c.name
  | .set s => s.name

/-- The field `tags` of the struct behind a `metric`. -/
def metric.tags : metric → List Bytes
  | .gauge g => g.tags
  | .histogram hg => hg.tags
  | .counter c => c.tags
  | .set s => s.tags

/-- Is the `metric` a histogram. -/
def metric.isHistogram : metric → Bool
  | .histogram _ => true
  | _ => false

/-- The call `k` created the entry of the context `c` in the course of the
calls `calls` from the program start: `k` is one of the calls, it is made on
`c`, the store has no entry for `c` before it and has one after it. -/
def createdBy (calls : List SampleCall) (c : Context) (k : SampleCall) : Prop :=
  ∃ (pre post : List SampleCall) (h0 h1 : Heap),
    calls = pre ++ k :: post ∧ k.c = c ∧
    sampleCalls initialHeap pre = .ok h0 ∧
    mapLookup (store h0) c = none ∧
    bucket_aggregator.Sample_metric h0 k.c k.name k.tags k.metric_type k.raw_value k.sample_rate
      = .ok h1 ∧
    mapLookup (store h1) c ≠ none

/-! ## Lemmas on maps and the heap -/

theorem mapStore_same (s : MapContents) (c : Context) (m : metric)
    (hm : mapLookup s c = some m) : mapStore s c m = s := by
  induction s with
  | nil => simp [mapLookup] at hm
  | cons kv rest ih =>
    obtain ⟨k, w⟩ := kv
    by_cases hk : k = c
    · simp [mapLookup, hk] at hm
      simp [mapStore, hk, hm]
    · simp [mapLookup, hk] at hm
      simp [mapStore, hk, ih hm]

theorem mapLookup_mapStore (s : MapContents) (c : Context) (m : metric) :
    mapLookup (mapStore s c m) c = some m := by
  induction s with
  | nil => simp [mapStore, mapLookup]
  | cons kv rest ih =>
    obtain ⟨k, w⟩ := kv
    by_cases hk : k = c
    · simp [mapStore, mapLookup, hk]
    · simp [mapStore, mapLookup, hk, ih]

theorem mapLookup_mapStore_other (s : MapContents) (c c1 : Context) (m : metric)
    (hne : c1 ≠ c) : mapLookup (mapStore s c m) c1 = mapLookup s c1 := by
  induction s with
  | nil =>
    have : ¬ c = c1 := fun h => hne h.symm
    simp [mapStore, mapLookup, this]
  | cons kv rest ih =>
    obtain ⟨k, w⟩ := kv
    by_cases hk : k = c
    · subst hk
      have : ¬ k = c1 := fun h => hne h.symm
      simp [mapStore, mapLookup, this]
    · by_cases hk1 : k = c1
      · subst hk1
        simp [mapStore, mapLookup, hk]
      · simp [mapStore, mapLookup, hk, hk1, ih]

theorem Heap.read_make (h : Heap) (addr : Nat) : (h.make).2.read addr = h.read addr := by
  simp only [Heap.make, Heap.read]
  rcases Nat.lt_trichotomy addr h.maps.length with hlt | heq | hgt
  · simp [List.getD_eq_getElem?_getD, List.getElem?_append_left hlt]
  · subst heq
    simp [List.getD_eq_getElem?_getD]
  · have h1 : h.maps.length ≤ addr := Nat.le_of_lt hgt
    have h2 : (h.maps ++ [[]]).length ≤ addr := by simp; omega
    simp [List.getD_eq_getElem?_getD, List.getElem?_eq_none h1, List.getElem?_eq_none h2]

theorem Heap.write_read (h : Heap) (addr : Nat) : h.write addr (h.read addr) = h := by
  obtain ⟨maps⟩ := h
  simp only [Heap.write, Heap.read]
  congr 1
  by_cases hlt : addr < maps.length
  · apply List.ext_getElem (by simp)
    intro i h1 h2
    by_cases hi : addr = i
    · subst hi
      simp [List.getD_eq_getElem?_getD, List.getElem?_eq_getElem hlt]
    · simp [List.getElem_set_ne hi]
  · exact List.set_eq_of_length_le (Nat.le_of_not_lt hlt)

theorem Heap.read_write (h : Heap) (addr : Nat) (s : MapContents)
    (hlt : addr < h.maps.length) : (h.write addr s).read addr = s := by
  simp [Heap.write, Heap.read, List.getD_eq_getElem?_getD, hlt]

theorem Heap.read_ne_nil_lt (h : Heap) (addr : Nat) (hne : h.read addr ≠ []) :
    addr < h.maps.length := by
  by_contra hge
  apply hne
  simp [Heap.read, List.getD_eq_getElem?_getD, List.getElem?_eq_none (Nat.le_of_not_lt hge)]

/-- A call of `Flush` leaves the map of its receiver as it was. -/
theorem Aggregator.Flush_read (a : Aggregator) (h : Heap) (timestamp : Int) (addr : Nat) :
    (a.Flush h timestamp).2.read addr = h.read addr := by
  unfold Aggregator.Flush
  simp only []
  split <;> exact Heap.read_make h addr

/-! ## Lemmas on the variants -/

theorem wrap64_wrap64_add (a b : Int) : wrap64 (wrap64 a + b) = wrap64 (a + b) := by
  unfold wrap64
  omega

theorem wrap64_idem (a : Int) : wrap64 (wrap64 a) = wrap64 a := by
  unfold wrap64
  omega

theorem counter.sampleAll_count (samples : List (Bytes × Float64)) :
    ∀ (m : counter) (fs : List Float64),
      samples.map (fun s => ParseFloat s.1) = fs.map some →
      wrap64 m.count = m.count →
      (m.sampleAll samples).count =
        wrap64 (m.count + (List.zipWith (fun f s => (Float64.div f s.2).toInt64) fs samples).sum) := by
  induction samples with
  | nil =>
    intro m fs _ hr
    cases fs <;> simp [counter.sampleAll, hr]
  | cons s rest ih =>
    intro m fs hnum hr
    cases fs with
    | nil => simp at hnum
    | cons f fs1 =>
      simp only [List.map_cons, List.cons.injEq] at hnum
      obtain ⟨hf, hrest⟩ := hnum
      have hstep : (m.sample s.1 s.2).1
          = { m with count := wrap64 (m.count + (Float64.div f s.2).toInt64) } := by
        simp [counter.sample, hf]
      have h1 := ih (m.sample s.1 s.2).1 fs1 hrest (by rw [hstep]; exact wrap64_idem _)
      have h2 : m.sampleAll (s :: rest) = (m.sample s.1 s.2).1.sampleAll rest := by
        simp [counter.sampleAll]
      rw [h2, h1, hstep]
      simp only [List.zipWith_cons_cons, List.sum_cons]
      rw [wrap64_wrap64_add, Int.add_assoc]

theorem set.sampleAll_values (samples : List (Bytes × Float64)) :
    ∀ m : set, m.values.Nodup →
      (m.sampleAll samples).values.Nodup ∧
      ∀ x, x ∈ (m.sampleAll samples).values ↔ x ∈ m.values ∨ x ∈ samples.map Prod.fst := by
  induction samples with
  | nil =>
    intro m hm
    simp [set.sampleAll, hm]
  | cons s rest ih =>
    intro m hm
    have h2 : m.sampleAll (s :: rest) = (m.sample s.1 s.2).1.sampleAll rest := by
      simp [set.sampleAll]
    have hnd : (m.sample s.1 s.2).1.values.Nodup := by
      simp only [set.sample]
      split
      · exact hm
      · rename_i hnot
        exact List.Nodup.append hm (List.nodup_singleton _) (by simpa using hnot)
    have hmem : ∀ x, x ∈ (m.sample s.1 s.2).1.values ↔ x ∈ m.values ∨ x = s.1 := by
      intro x
      simp only [set.sample]
      split
      · rename_i hin
        constructor
        · intro hx; exact Or.inl hx
        · rintro (hx | hx)
          · exact hx
          · rw [hx]; exact hin
      · simp
    obtain ⟨ihnd, ihmem⟩ := ih (m.sample s.1 s.2).1 hnd
    rw [h2]
    refine ⟨ihnd, fun x => ?_⟩
    rw [ihmem x, hmem x]
    simp only [List.map_cons, List.mem_cons]
    tauto

/-- A `sample` that returns an error leaves the variant as it was. -/
theorem metric.sample_error_same (m m1 : metric) (value : Bytes) (rate : Float64) (e : Err)
    (hs : m.sample value rate = .ok (m1, some e)) : m1 = m := by
  cases m with
  | gauge g =>
    simp only [metric.sample, gauge.sample] at hs
    cases hp : ParseFloat value <;> simp [hp] at hs
    exact hs.1.symm
  | histogram hg =>
    simp only [metric.sample, histogram.sample] at hs
    cases hp : ParseFloat value
    · simp [hp] at hs
      exact hs.1.symm
    · by_cases hlen : hg.samples.length < MAX_STORED_HIST_SAMPLE
      · simp [hp, hlen, setIndex] at hs
      · simp [hp, hlen] at hs
  | counter c =>
    simp only [metric.sample, counter.sample] at hs
    cases hp : ParseFloat value <;> simp [hp] at hs
    exact hs.1.symm
  | set st =>
    simp [metric.sample, set.sample] at hs

/-- A variant other than a set rejects a value that is not numeric. -/
theorem metric.sample_not_numeric (m : metric) (value : Bytes) (rate : Float64)
    (hval : ParseFloat value = none) (hset : ∀ st, m ≠ metric.set st) :
    ∃ e, m.sample value rate = .ok (m, some e) := by
  cases m with
  | gauge g => exact ⟨Err.gaugeValueNotFloat value, by simp [metric.sample, gauge.sample, hval]⟩
  | histogram hg => exact ⟨Err.valueNotFloat value, by simp [metric.sample, histogram.sample, hval]⟩
  | counter c => exact ⟨Err.valueNotFloat value, by simp [metric.sample, counter.sample, hval]⟩
  | set st => exact absurd rfl (hset st)

/-- `Sample_metric` on a context that has an entry: the entry's `sample` is
applied and the struct it leaves is the entry afterwards. -/
theorem Aggregator.Sample_metric_existing (a : Aggregator) (h : Heap) (c : Context) (m : metric)
    (name : Bytes) (tags : List Bytes) (metric_type raw_value : Bytes) (sample_rate : Float64)
    (hm : mapLookup (h.read a.metrics_by_context) c = some m) :
    a.Sample_metric h c name tags metric_type raw_value sample_rate =
      match m.sample raw_value sample_rate with
      | .error f => .error f
      | .ok r => .ok (h.write a.metrics_by_context
          (mapStore (h.read a.metrics_by_context) c r.1)) := by
  simp only [Aggregator.Sample_metric, hm]

/-- `Sample_metric` with a sample that the existing entry rejects: the heap is
as before. -/
theorem Aggregator.Sample_metric_existing_error (a : Aggregator) (h : Heap) (c : Context)
    (m m1 : metric) (e : Err)
    (name : Bytes) (tags : List Bytes) (metric_type raw_value : Bytes) (sample_rate : Float64)
    (hm : mapLookup (h.read a.metrics_by_context) c = some m)
    (hs : m.sample raw_value sample_rate = .ok (m1, some e)) :
    a.Sample_metric h c name tags metric_type raw_value sample_rate = .ok h := by
  have h1 := metric.sample_error_same m m1 raw_value sample_rate e hs
  subst h1
  rw [Aggregator.Sample_metric_existing a h c m1 name tags metric_type raw_value sample_rate hm, hs]
  simp only [mapStore_same _ _ _ hm, Heap.write_read]

theorem mapLookup_read_lt (h : Heap) (addr : Nat) (c : Context) (m : metric)
    (hm : mapLookup (h.read addr) c = some m) : addr < h.maps.length := by
  apply Heap.read_ne_nil_lt
  intro hnil
  rw [hnil] at hm
  simp [mapLookup] at hm

theorem ascii_g : ascii "g" = [103] := by decide
theorem ascii_c : ascii "c" = [99] := by decide
theorem ascii_h : ascii "h" = [104] := by decide
theorem ascii_ms : ascii "ms" = [109, 115] := by decide
theorem ascii_s : ascii "s" = [115] := by decide

/-- `CreateMetric` on the type codes other than `s`: a new gauge, counter or
histogram. -/
theorem Aggregator.CreateMetric_numeric (a : Aggregator) (name : Bytes) (tags : List Bytes)
    (metric_type : Bytes) (c : Context)
    (htype : metric_type = ascii "g" ∨ metric_type = ascii "c" ∨ metric_type = ascii "h" ∨
      metric_type = ascii "ms") :
    ∃ m, a.CreateMetric name tags metric_type c = (some m, none) ∧ ∀ st, m ≠ metric.set st := by
  rcases htype with h1 | h1 | h1 | h1 <;> subst h1 <;>
    simp [Aggregator.CreateMetric, ascii_g, ascii_c, ascii_h, ascii_ms, ascii_s]

/-! ## Lemmas on splitting and sorting -/

theorem Split_not_mem (x : Bytes) (sep : UInt8) (hx : sep ∉ x) : Split x sep = [x] := by
  induction x with
  | nil => simp [Split]
  | cons b bs ih =>
    simp only [List.mem_cons, not_or] at hx
    have hb : ¬ b = sep := fun h => hx.1 h.symm
    simp [Split, hb, ih hx.2]

theorem Split_append_sep (x rest : Bytes) (sep : UInt8) (hx : sep ∉ x) :
    Split (x ++ sep :: rest) sep = x :: Split rest sep := by
  induction x with
  | nil => simp [Split]
  | cons b bs ih =>
    simp only [List.mem_cons, not_or] at hx
    have hb : ¬ b = sep := fun h => hx.1 h.symm
    simp [Split, hb, ih hx.2]

theorem cut_append_sep (x rest : Bytes) (sep : UInt8) (hx : sep ∉ x) :
    cut (x ++ sep :: rest) sep = some (x, rest) := by
  induction x with
  | nil => simp [cut]
  | cons b bs ih =>
    simp only [List.mem_cons, not_or] at hx
    have hb : ¬ b = sep := fun h => hx.1 h.symm
    simp [cut, hb, ih hx.2]

theorem SplitN_two (x rest : Bytes) (sep : UInt8) (hx : sep ∉ x) :
    SplitN (x ++ sep :: rest) sep 2 = [x, rest] := by
  simp [SplitN, cut_append_sep x rest sep hx]

theorem not_mem_Join (ts : List Bytes) (sep b : UInt8) (hb : b ≠ sep)
    (hts : ∀ t ∈ ts, b ∉ t) : b ∉ Join ts [sep] := by
  induction ts with
  | nil => simp [Join]
  | cons t rest ih =>
    cases rest with
    | nil => simpa [Join] using hts t (by simp)
    | cons u rest1 =>
      have h1 := hts t (by simp)
      have h2 := ih (fun v hv => hts v (List.mem_cons_of_mem _ hv))
      simp only [Join, List.mem_append, List.mem_singleton, not_or]
      exact ⟨⟨h1, hb⟩, h2⟩

theorem Split_Join (ts : List Bytes) (sep : UInt8) (hne : ts ≠ [])
    (hts : ∀ t ∈ ts, sep ∉ t) : Split (Join ts [sep]) sep = ts := by
  induction ts with
  | nil => exact absurd rfl hne
  | cons t rest ih =>
    cases rest with
    | nil => simpa [Join] using Split_not_mem t sep (hts t (by simp))
    | cons u rest1 =>
      have h1 := hts t (by simp)
      have h2 := ih (by simp) (fun v hv => hts v (List.mem_cons_of_mem _ hv))
      simp only [Join, List.append_assoc, List.singleton_append]
      rw [Split_append_sep t _ sep h1, h2]

theorem stringLE_total (a : Bytes) : ∀ b : Bytes, stringLE a b = true ∨ stringLE b a = true := by
  induction a with
  | nil => intro b; simp [stringLE]
  | cons x xs ih =>
    intro b
    cases b with
    | nil => simp [stringLE]
    | cons y ys =>
      simp only [stringLE, Bool.or_eq_true, Bool.and_eq_true, decide_eq_true_eq, beq_iff_eq]
      rcases Nat.lt_trichotomy x.toNat y.toNat with h | h | h
      · exact Or.inl (Or.inl h)
      · rcases ih ys with h1 | h1
        · exact Or.inl (Or.inr ⟨h, h1⟩)
        · exact Or.inr (Or.inr ⟨h.symm, h1⟩)
      · exact Or.inr (Or.inl h)

theorem stringLE_antisymm (a : Bytes) :
    ∀ b : Bytes, stringLE a b = true → stringLE b a = true → a = b := by
  induction a with
  | nil =>
    intro b _ hba
    cases b with
    | nil => rfl
    | cons y ys => simp [stringLE] at hba
  | cons x xs ih =>
    intro b hab hba
    cases b with
    | nil => simp [stringLE] at hab
    | cons y ys =>
      simp only [stringLE, Bool.or_eq_true, Bool.and_eq_true, decide_eq_true_eq,
        beq_iff_eq] at hab hba
      rcases hab with h | ⟨h, h1⟩
      · rcases hba with h2 | ⟨h2, _⟩ <;> omega
      · rcases hba with h2 | ⟨_, h3⟩
        · omega
        · rw [UInt8.ext h, ih ys h1 h3]

theorem stringLE_trans (a : Bytes) :
    ∀ b c : Bytes, stringLE a b = true → stringLE b c = true → stringLE a c = true := by
  induction a with
  | nil => intro b c _ _; simp [stringLE]
  | cons x xs ih =>
    intro b c hab hbc
    cases b with
    | nil => simp [stringLE] at hab
    | cons y ys =>
      cases c with
      | nil => simp [stringLE] at hbc
      | cons z zs =>
        simp only [stringLE, Bool.or_eq_true, Bool.and_eq_true, decide_eq_true_eq,
          beq_iff_eq] at hab hbc ⊢
        rcases hab with h | ⟨h, h1⟩
        · rcases hbc with h2 | ⟨h2, _⟩
          · exact Or.inl (by omega)
          · exact Or.inl (by omega)
        · rcases hbc with h2 | ⟨h2, h3⟩
          · exact Or.inl (by omega)
          · exact Or.inr ⟨by omega, ih ys zs h1 h3⟩

instance stringLE_isTotal : IsTotal Bytes (fun x y => stringLE x y = true) :=
  ⟨fun a b => stringLE_total a b⟩

instance stringLE_isTrans : IsTrans Bytes (fun x y => stringLE x y = true) :=
  ⟨fun a b c => stringLE_trans a b c⟩

instance stringLE_isAntisymm : IsAntisymm Bytes (fun x y => stringLE x y = true) :=
  ⟨fun a b => stringLE_antisymm a b⟩

theorem sort_Strings_perm (a : List Bytes) : (sort_Strings a).Perm a :=
  List.perm_insertionSort _ a

/-- The result of `sort.Strings` depends on the strings only, not on their
order. -/
theorem sort_Strings_eq_of_perm (a b : List Bytes) (hp : a.Perm b) :
    sort_Strings a = sort_Strings b :=
  List.eq_of_perm_of_sorted
    (((sort_Strings_perm a).trans hp).trans (sort_Strings_perm b).symm)
    (List.sorted_insertionSort _ a) (List.sorted_insertionSort _ b)

theorem AROBASE_eq : AROBASE = [64] := by decide
theorem POUND_SIGN_eq : POUND_SIGN = [35] := by decide

theorem HasPrefix_AROBASE (r : Bytes) : HasPrefix (AROBASE ++ r) AROBASE = true := by
  simp [HasPrefix, AROBASE_eq, List.isPrefixOf]

theorem HasPrefix_POUND_SIGN (x : Bytes) : HasPrefix (POUND_SIGN ++ x) POUND_SIGN = true := by
  simp [HasPrefix, POUND_SIGN_eq, List.isPrefixOf]

theorem HasPrefix_POUND_SIGN_AROBASE (x : Bytes) :
    HasPrefix (POUND_SIGN ++ x) AROBASE = false := by
  have hne : ¬ (Nat.toUInt8 64 = Nat.toUInt8 35) := by decide
  simp [HasPrefix, POUND_SIGN_eq, AROBASE_eq, List.isPrefixOf, hne]

theorem drop_AROBASE (r : Bytes) : (AROBASE ++ r).drop 1 = r := by
  simp [AROBASE_eq]

theorem drop_POUND_SIGN (x : Bytes) : (POUND_SIGN ++ x).drop 1 = x := by
  simp [POUND_SIGN_eq]

/-- The fields after the colon of a line of the grammar, as `bytes.Split`
returns them. -/
theorem Split_line_data (value metric_type : Bytes) (rate : Option Bytes) (tags : List Bytes)
    (hvalue : PIPE_SEP ∉ value) (htype : PIPE_SEP ∉ metric_type)
    (hrate : ∀ r, rate = some r → PIPE_SEP ∉ r)
    (htags : ∀ t ∈ tags, PIPE_SEP ∉ t) :
    Split (value ++ PIPE_SEP :: (metric_type ++ (rateToken rate ++ tagsToken tags))) PIPE_SEP =
      value :: metric_type :: optionalTokens rate tags := by
  have hj : PIPE_SEP ∉ POUND_SIGN ++ Join tags [COMA] := by
    have h1 := not_mem_Join tags COMA PIPE_SEP (by decide) htags
    have h2 : PIPE_SEP ∉ POUND_SIGN := by decide
    simp only [List.mem_append, not_or]
    exact ⟨h2, h1⟩
  rw [Split_append_sep value _ PIPE_SEP hvalue]
  cases rate with
  | none =>
    by_cases ht : tags = []
    · simp [rateToken, tagsToken, optionalTokens, ht, Split_not_mem metric_type PIPE_SEP htype]
    · simp only [rateToken, tagsToken, optionalTokens, ht, if_false, List.nil_append]
      rw [Split_append_sep metric_type _ PIPE_SEP htype, Split_not_mem _ PIPE_SEP hj]
  | some r =>
    have hr : PIPE_SEP ∉ AROBASE ++ r := by
      have h1 := hrate r rfl
      have h2 : PIPE_SEP ∉ AROBASE := by decide
      simp only [List.mem_append, not_or]
      exact ⟨h2, h1⟩
    by_cases ht : tags = []
    · simp only [rateToken, tagsToken, optionalTokens, ht, if_true, List.append_nil]
      rw [Split_append_sep metric_type _ PIPE_SEP htype, Split_not_mem _ PIPE_SEP hr]
    · simp only [rateToken, tagsToken, optionalTokens, ht, if_false, List.cons_append]
      rw [Split_append_sep metric_type _ PIPE_SEP htype,
        Split_append_sep (AROBASE ++ r) _ PIPE_SEP hr, Split_not_mem _ PIPE_SEP hj]
      simp

/-- The loop of `parse_metric_packet` over the optional tokens of a line of
the grammar: the sample rate and the tags it ends with. -/
theorem scan_line_tokens (rate : Option Bytes) (tags : List Bytes)
    (htags : ∀ t ∈ tags, COMA ∉ t) :
    List.foldl scanDatum (Float64.one, []) (optionalTokens rate tags) = (rateOf rate, tags) := by
  have hpound : ∀ (st : Float64 × List Bytes), tags ≠ [] →
      scanDatum st (POUND_SIGN ++ Join tags [COMA]) = (st.1, tags) := by
    intro st ht
    simp only [scanDatum, HasPrefix_POUND_SIGN_AROBASE, HasPrefix_POUND_SIGN, drop_POUND_SIGN,
      Split_Join tags COMA ht htags]
    simp
  cases rate with
  | none =>
    by_cases ht : tags = []
    · simp [optionalTokens, ht, rateOf]
    · simp [optionalTokens, ht, rateOf, hpound _ ht]
  | some r =>
    have hr : scanDatum (Float64.one, []) (AROBASE ++ r) = (rateOf (some r), []) := by
      cases hp : ParseFloat r <;>
        simp only [scanDatum, HasPrefix_AROBASE, drop_AROBASE, rateOf, hp, if_true]
    by_cases ht : tags = []
    · simp [optionalTokens, ht, hr]
    · simp [optionalTokens, ht, hr, hpound _ ht]

/-- What `parse_metric_packet` hands to `Sample_metric` for a line of the
grammar. -/
theorem parse_metric_packet_call_metricLine (name value metric_type : Bytes)
    (rate : Option Bytes) (tags : List Bytes)
    (hname : SEMI_COLON ∉ name) (hvalue : PIPE_SEP ∉ value) (htype : PIPE_SEP ∉ metric_type)
    (hrate : ∀ r, rate = some r → PIPE_SEP ∉ r)
    (htags : ∀ t ∈ tags, PIPE_SEP ∉ t ∧ COMA ∉ t) :
    parse_metric_packet_call (metricLine name value metric_type rate tags) =
      .ok { c := { Metric_name := name, Tag_string := Join (sort_Strings tags) (ascii ",") }
            name := name
            tags := sort_Strings tags
            metric_type := metric_type
            raw_value := value
            sample_rate := rateOf rate } := by
  have hsplit := Split_line_data value metric_type rate tags hvalue htype hrate
    (fun t ht => (htags t ht).1)
  have hscan := scan_line_tokens rate tags (fun t ht => (htags t ht).2)
  simp only [parse_metric_packet_call, metricLine, SplitN_two name _ SEMI_COLON hname, index,
    List.get?, hsplit, List.drop, hscan]

theorem rateOf_of_writtenRate (rate : Option Bytes) (f : Float64)
    (hf : writtenRate rate = some f) : rateOf rate = f := by
  cases rate with
  | none => simpa [writtenRate, rateOf] using hf
  | some r =>
    simp only [writtenRate] at hf
    simp [rateOf, hf]

theorem not_mem_of_getD (rate : Option Bytes) (b : UInt8) (hb : b ∉ rate.getD []) :
    ∀ r, rate = some r → b ∉ r := by
  intro r hr
  subst hr
  simpa using hb

/-- `Sample_metric` with a value that is not numeric, when the sample goes to a
gauge, counter or histogram: the heap is as before. -/
theorem Aggregator.Sample_metric_not_numeric (a : Aggregator) (h : Heap) (c : Context)
    (name : Bytes) (tags : List Bytes) (metric_type raw_value : Bytes) (sample_rate : Float64)
    (hval : ParseFloat raw_value = none)
    (hnew : mapLookup (h.read a.metrics_by_context) c = none →
      metric_type = ascii "g" ∨ metric_type = ascii "c" ∨ metric_type = ascii "h" ∨
        metric_type = ascii "ms")
    (hold : ∀ st, mapLookup (h.read a.metrics_by_context) c ≠ some (metric.set st)) :
    a.Sample_metric h c name tags metric_type raw_value sample_rate = .ok h := by
  cases hm : mapLookup (h.read a.metrics_by_context) c with
  | some m =>
    have hnotset : ∀ st, m ≠ metric.set st := fun st hst => hold st (by rw [hm, hst])
    obtain ⟨e, he⟩ := metric.sample_not_numeric m raw_value sample_rate hval hnotset
    exact Aggregator.Sample_metric_existing_error a h c m m e name tags metric_type raw_value
      sample_rate hm he
  | none =>
    obtain ⟨m, hc, hnotset⟩ := Aggregator.CreateMetric_numeric a name tags metric_type c (hnew hm)
    obtain ⟨e, he⟩ := metric.sample_not_numeric m raw_value sample_rate hval hnotset
    simp only [Aggregator.Sample_metric, hm, hc, he]

theorem ParseFloat_nil : ParseFloat [] = none := by decide

theorem HasPrefix_EVENT_PREFIX (packet : Bytes) :
    HasPrefix packet EVENT_PREFIX = true ↔ ascii "_e" <+: packet := by
  simp [HasPrefix, EVENT_PREFIX]

/-- The store after a call of `Sample_metric` that returns: as before, or with
the entry of the sampled context written. -/
theorem Aggregator.Sample_metric_read (a : Aggregator) (h h1 : Heap) (c : Context)
    (name : Bytes) (tags : List Bytes) (metric_type raw_value : Bytes) (sample_rate : Float64)
    (hdone : a.Sample_metric h c name tags metric_type raw_value sample_rate = .ok h1) :
    h1.read a.metrics_by_context = h.read a.metrics_by_context ∨
    ∃ m, h1.read a.metrics_by_context = mapStore (h.read a.metrics_by_context) c m := by
  have hw : ∀ m, (h.write a.metrics_by_context
      (mapStore (h.read a.metrics_by_context) c m)).read a.metrics_by_context
        = h.read a.metrics_by_context ∨
      ∃ m1, (h.write a.metrics_by_context
        (mapStore (h.read a.metrics_by_context) c m)).read a.metrics_by_context
          = mapStore (h.read a.metrics_by_context) c m1 := by
    intro m
    by_cases hlt : a.metrics_by_context < h.maps.length
    · exact Or.inr ⟨m, Heap.read_write h _ _ hlt⟩
    · left
      have : h.write a.metrics_by_context (mapStore (h.read a.metrics_by_context) c m) = h := by
        obtain ⟨maps⟩ := h
        simp only [Heap.write]
        congr 1
        exact List.set_eq_of_length_le (Nat.le_of_not_lt hlt)
      rw [this]
  simp only [Aggregator.Sample_metric] at hdone
  split at hdone
  · split at hdone
    · exact absurd hdone (by simp)
    · simp only [Except.ok.injEq] at hdone
      subst hdone
      exact hw _
  · split at hdone
    · exact absurd hdone (by simp)
    · simp only [Except.ok.injEq] at hdone
      subst hdone
      exact Or.inl rfl
    · split at hdone
      · exact absurd hdone (by simp)
      · simp only [Except.ok.injEq] at hdone
        subst hdone
        exact hw _
      · simp only [Except.ok.injEq] at hdone
        subst hdone
        exact Or.inl rfl

theorem filter_mapStore (s : MapContents) (c : Context) (m : metric) :
    (mapStore s c m).filter (fun kv => decide (kv.1 ≠ c)) = s.filter (fun kv => decide (kv.1 ≠ c)) := by
  induction s with
  | nil => simp [mapStore]
  | cons kv rest ih =>
    obtain ⟨k, w⟩ := kv
    by_cases hk : k = c
    · simp [mapStore, hk]
    · simp only [mapStore, hk, if_false, List.filter_cons, ih]

/-! ## Lemmas on the stores reached by calls of `Sample_metric` -/

theorem sampleCalls_append (xs ys : List SampleCall) :
    ∀ h : Heap, sampleCalls h (xs ++ ys) =
      match sampleCalls h xs with
      | .error f => .error f
      | .ok h1 => sampleCalls h1 ys := by
  induction xs with
  | nil => intro h; simp [sampleCalls]
  | cons k rest ih =>
    intro h
    simp only [List.cons_append, sampleCalls]
    cases bucket_aggregator.Sample_metric h k.c k.name k.tags k.metric_type k.raw_value
        k.sample_rate with
    | error f => rfl
    | ok h1 => exact ih h1

theorem foldl_append_singleton {α β : Type} (f : α → β) (l : List α) :
    ∀ init : List β, l.foldl (fun acc x => acc ++ [f x]) init = init ++ l.map f := by
  induction l with
  | nil => intro init; simp
  | cons x rest ih => intro init; simp [ih]

theorem Aggregator.to_flush_eq_map (a : Aggregator) (h : Heap) (timestamp : Int) :
    a.to_flush h timestamp
      = (h.read a.metrics_by_context).map (fun kv => kv.2.flush timestamp 15) := by
  simp [Aggregator.to_flush, foldl_append_singleton (fun kv : Context × metric =>
    kv.2.flush timestamp 15)]

/-- When `Flush` returns a payload, its series is the slice `to_flush`. -/
theorem Aggregator.Flush_ok_series (a : Aggregator) (h : Heap) (timestamp : Int) (p : Payload)
    (hp : (a.Flush h timestamp).1 = .ok p) : p.series = a.to_flush h timestamp := by
  simp only [Aggregator.Flush, json_Marshal] at hp
  split at hp
  · simp at hp
  · rename_i bytes hser
    simp only [Except.ok.injEq] at hp
    subst hp
    split at hser
    · simp only [Option.some.injEq] at hser
      rw [← hser]
      rfl
    · simp at hser

/-- A `sample` that returns leaves name, tags and variant as they were. -/
theorem metric.sample_ok_shape (m m1 : metric) (value : Bytes) (rate : Float64) (e : Option Err)
    (hs : m.sample value rate = .ok (m1, e)) :
    m1.name = m.name ∧ m1.tags = m.tags ∧ m1.isHistogram = m.isHistogram := by
  cases m with
  | gauge g =>
    simp only [metric.sample, gauge.sample, Except.ok.injEq, Prod.mk.injEq] at hs
    rw [← hs.1]
    cases ParseFloat value <;> simp [metric.name, metric.tags, metric.isHistogram]
  | histogram hg =>
    simp only [metric.sample] at hs
    cases hh : hg.sample value rate with
    | error f => simp [hh] at hs
    | ok r =>
      simp only [hh, Except.ok.injEq, Prod.mk.injEq] at hs
      rw [← hs.1]
      simp only [histogram.sample] at hh
      cases hp : ParseFloat value with
      | none =>
        simp only [hp, Except.ok.injEq] at hh
        rw [← hh]
        simp [metric.name, metric.tags, metric.isHistogram]
      | some f =>
        simp only [hp] at hh
        by_cases hlen : hg.samples.length < MAX_STORED_HIST_SAMPLE
        · simp [hlen, setIndex] at hh
        · simp only [hlen, if_false, Except.ok.injEq] at hh
          rw [← hh]
          simp [metric.name, metric.tags, metric.isHistogram]
  | counter c =>
    simp only [metric.sample, counter.sample, Except.ok.injEq, Prod.mk.injEq] at hs
    rw [← hs.1]
    cases ParseFloat value <;> simp [metric.name, metric.tags, metric.isHistogram]
  | set st =>
    simp only [metric.sample, set.sample, Except.ok.injEq, Prod.mk.injEq] at hs
    rw [← hs.1]
    simp [metric.name, metric.tags, metric.isHistogram]

/-- On a new histogram no `sample` returns without error. -/
theorem newHistogram_sample_ne_ok (name : Bytes) (tags : List Bytes) (value : Bytes)
    (rate : Float64) (m1 : metric) :
    (metric.histogram (newHistogram name tags)).sample value rate ≠ .ok (m1, none) := by
  intro hs
  simp only [metric.sample, histogram.sample, newHistogram] at hs
  cases hp : ParseFloat value with
  | none => simp [hp] at hs
  | some f => simp [hp, setIndex, MAX_STORED_HIST_SAMPLE] at hs

/-- What `CreateMetric` returns when it returns a metric. -/
theorem Aggregator.CreateMetric_some (a : Aggregator) (name : Bytes) (tags : List Bytes)
    (metric_type : Bytes) (c : Context) (m : metric) (e : Option Err)
    (hc : a.CreateMetric name tags metric_type c = (some m, e)) :
    m.name = name ∧ m.tags = tags ∧
    (m.isHistogram = true → m = metric.histogram (newHistogram name tags)) := by
  simp only [Aggregator.CreateMetric] at hc
  split at hc
  · simp only [Prod.mk.injEq, Option.some.injEq] at hc
    rw [← hc.1]
    simp [metric.name, metric.tags, metric.isHistogram, newGauge]
  · split at hc
    · simp only [Prod.mk.injEq, Option.some.injEq] at hc
      rw [← hc.1]
      simp [metric.name, metric.tags, newHistogram]
    · split at hc
      · simp only [Prod.mk.injEq, Option.some.injEq] at hc
        rw [← hc.1]
        simp [metric.name, metric.tags, metric.isHistogram, newCounter]
      · split at hc
        · simp only [Prod.mk.injEq, Option.some.injEq] at hc
          rw [← hc.1]
          simp [metric.name, metric.tags, metric.isHistogram, newSet]
        · simp at hc

/-- The record a gauge, counter or set is flushed to. -/
theorem metric.flush_shape (m : metric) (timestamp interval : Int)
    (hm : m.isHistogram = false) :
    (m.flush timestamp interval).Metric = m.name ∧
    (m.flush timestamp interval).Tags = m.tags ∧
    (∃ v, (m.flush timestamp interval).Points = [(timestamp, v)]) ∧
    ((m.flush timestamp interval).Metric_type = ascii "gauge" ∨
      (m.flush timestamp interval).Metric_type = ascii "counter") := by
  cases m with
  | gauge g => exact ⟨rfl, rfl, ⟨_, rfl⟩, Or.inl rfl⟩
  | histogram hg => simp [metric.isHistogram] at hm
  | counter c => exact ⟨rfl, rfl, ⟨_, rfl⟩, Or.inr rfl⟩
  | set st => exact ⟨rfl, rfl, ⟨_, rfl⟩, Or.inl rfl⟩

theorem mapLookup_eq_none_iff (s : MapContents) (c : Context) :
    mapLookup s c = none ↔ c ∉ s.map Prod.fst := by
  induction s with
  | nil => simp [mapLookup]
  | cons kv rest ih =>
    obtain ⟨k, w⟩ := kv
    by_cases hk : k = c
    · simp [mapLookup, hk]
    · have hk1 : ¬ c = k := fun hc => hk hc.symm
      simp [mapLookup, hk, hk1, ih]

theorem mapLookup_some_mem (s : MapContents) (c : Context) (m : metric)
    (hm : mapLookup s c = some m) : (c, m) ∈ s := by
  induction s with
  | nil => simp [mapLookup] at hm
  | cons kv rest ih =>
    obtain ⟨k, w⟩ := kv
    by_cases hk : k = c
    · simp [mapLookup, hk] at hm
      simp [hk, hm]
    · simp [mapLookup, hk] at hm
      exact List.mem_cons_of_mem _ (ih hm)

theorem mem_mapStore (s : MapContents) (c : Context) (m : metric) (kv : Context × metric)
    (hkv : kv ∈ mapStore s c m) : kv = (c, m) ∨ kv ∈ s := by
  induction s with
  | nil => simpa [mapStore] using hkv
  | cons x rest ih =>
    obtain ⟨k, w⟩ := x
    by_cases hk : k = c
    · simp only [mapStore, hk, if_true, List.mem_cons] at hkv
      rcases hkv with h1 | h1
      · exact Or.inl h1
      · exact Or.inr (List.mem_cons_of_mem _ h1)
    · simp only [mapStore, hk, if_false, List.mem_cons] at hkv
      rcases hkv with h1 | h1
      · exact Or.inr (by simp [h1])
      · rcases ih h1 with h2 | h2
        · exact Or.inl h2
        · exact Or.inr (List.mem_cons_of_mem _ h2)

theorem mapStore_of_none (s : MapContents) (c : Context) (m : metric)
    (hm : mapLookup s c = none) : mapStore s c m = s ++ [(c, m)] := by
  induction s with
  | nil => simp [mapStore]
  | cons x rest ih =>
    obtain ⟨k, w⟩ := x
    by_cases hk : k = c
    · simp [mapLookup, hk] at hm
    · simp only [mapLookup, hk, if_false] at hm
      simp [mapStore, hk, ih hm]

theorem keys_mapStore_of_some (s : MapContents) (c : Context) (m m1 : metric)
    (hm : mapLookup s c = some m) :
    (mapStore s c m1).map Prod.fst = s.map Prod.fst := by
  induction s with
  | nil => simp [mapLookup] at hm
  | cons x rest ih =>
    obtain ⟨k, w⟩ := x
    by_cases hk : k = c
    · simp [mapStore, hk]
    · simp only [mapLookup, hk, if_false] at hm
      simp [mapStore, hk, ih hm]

theorem Heap.length_write (h : Heap) (addr : Nat) (s : MapContents) :
    (h.write addr s).maps.length = h.maps.length := by
  simp [Heap.write]

/-- The store after a call of `Sample_metric` that returns, from a heap in which
the map of `bucket_aggregator` is allocated: the store is as before, or the
entry of the sampled context has been sampled in place, or a new entry with
the name and tags of the call has been added for it. -/
theorem Sample_metric_step (h h1 : Heap) (k : SampleCall)
    (hv : bucket_aggregator.metrics_by_context < h.maps.length)
    (hdone : bucket_aggregator.Sample_metric h k.c k.name k.tags k.metric_type k.raw_value
      k.sample_rate = .ok h1) :
    bucket_aggregator.metrics_by_context < h1.maps.length ∧
    (store h1 = store h ∨
     (∃ m m1, mapLookup (store h) k.c = some m ∧ m1.name = m.name ∧ m1.tags = m.tags ∧
        m1.isHistogram = m.isHistogram ∧ store h1 = mapStore (store h) k.c m1) ∨
     (∃ m1, mapLookup (store h) k.c = none ∧ m1.name = k.name ∧ m1.tags = k.tags ∧
        m1.isHistogram = false ∧ store h1 = mapStore (store h) k.c m1)) := by
  cases hm : mapLookup (h.read bucket_aggregator.metrics_by_context) k.c with
  | some m =>
    simp only [Aggregator.Sample_metric, hm] at hdone
    cases hs : m.sample k.raw_value k.sample_rate with
    | error f => simp [hs] at hdone
    | ok r =>
      simp only [hs, Except.ok.injEq] at hdone
      subst hdone
      refine ⟨by rw [Heap.length_write]; exact hv, Or.inr (Or.inl ⟨m, r.1, hm, ?_⟩)⟩
      obtain ⟨hn, ht, hh⟩ := metric.sample_ok_shape m r.1 k.raw_value k.sample_rate r.2 hs
      exact ⟨hn, ht, hh, Heap.read_write h _ _ hv⟩
  | none =>
    simp only [Aggregator.Sample_metric, hm] at hdone
    cases hc : bucket_aggregator.CreateMetric k.name k.tags k.metric_type k.c with
    | mk om oe =>
      cases om with
      | none => simp [hc] at hdone
      | some m0 =>
        cases oe with
        | some e =>
          simp only [hc, Except.ok.injEq] at hdone
          subst hdone
          exact ⟨hv, Or.inl rfl⟩
        | none =>
          simp only [hc] at hdone
          cases hs : m0.sample k.raw_value k.sample_rate with
          | error f => simp [hs] at hdone
          | ok r =>
            obtain ⟨m1, e1⟩ := r
            cases e1 with
            | some e =>
              simp only [hs, Except.ok.injEq] at hdone
              subst hdone
              exact ⟨hv, Or.inl rfl⟩
            | none =>
              simp only [hs, Except.ok.injEq] at hdone
              subst hdone
              obtain ⟨hn0, ht0, hh0⟩ := Aggregator.CreateMetric_some bucket_aggregator k.name
                k.tags k.metric_type k.c m0 none hc
              obtain ⟨hn, ht, hh⟩ := metric.sample_ok_shape m0 m1 k.raw_value k.sample_rate
                none hs
              have hnot : m0.isHistogram = false := by
                cases hb : m0.isHistogram with
                | false => rfl
                | true =>
                  have hnew := hh0 hb
                  rw [hnew] at hs
                  exact absurd hs (newHistogram_sample_ne_ok _ _ _ _ _)
              refine ⟨by rw [Heap.length_write]; exact hv, Or.inr (Or.inr ⟨m1, hm, ?_⟩)⟩
              exact ⟨hn.trans hn0, ht.trans ht0, hh.trans hnot, Heap.read_write h _ _ hv⟩

theorem createdBy_append (calls : List SampleCall) (c : Context) (k0 k : SampleCall)
    (hc : createdBy calls c k0) : createdBy (calls ++ [k]) c k0 := by
  obtain ⟨pre, post, h0, h1, heq, hrest⟩ := hc
  exact ⟨pre, post ++ [k], h0, h1, by simp [heq], hrest⟩

/-- The stores reached by calls of `Sample_metric` from the program start: the
map of `bucket_aggregator` is allocated, it has one entry per context, no
entry is a histogram, and every entry has the name and tags of the call that
created it. -/
theorem reachable_store_inv (calls : List SampleCall) :
    ∀ h : Heap, sampleCalls initialHeap calls = .ok h →
      bucket_aggregator.metrics_by_context < h.maps.length ∧
      ((store h).map Prod.fst).Nodup ∧
      ∀ kv ∈ store h, kv.2.isHistogram = false ∧
        ∃ k, createdBy calls kv.1 k ∧ kv.2.name = k.name ∧ kv.2.tags = k.tags := by
  induction calls using List.reverseRecOn with
  | nil =>
    intro h hr
    simp only [sampleCalls, Except.ok.injEq] at hr
    subst hr
    refine ⟨by decide, by decide, ?_⟩
    intro kv hkv
    have hnil : store initialHeap = [] := by decide
    rw [hnil] at hkv
    exact absurd hkv (List.not_mem_nil _)
  | append_singleton calls k ih =>
    intro h2 hr
    rw [sampleCalls_append] at hr
    cases hc : sampleCalls initialHeap calls with
    | error f => simp [hc] at hr
    | ok h =>
      simp only [hc, sampleCalls] at hr
      cases hs : bucket_aggregator.Sample_metric h k.c k.name k.tags k.metric_type k.raw_value
          k.sample_rate with
      | error f => simp [hs] at hr
      | ok h3 =>
        simp only [hs, Except.ok.injEq] at hr
        subst hr
        obtain ⟨hv, hnd, hent⟩ := ih h hc
        obtain ⟨hv1, hcases⟩ := Sample_metric_step h h3 k hv hs
        have hold : ∀ kv ∈ store h, kv.2.isHistogram = false ∧
            ∃ k1, createdBy (calls ++ [k]) kv.1 k1 ∧ kv.2.name = k1.name ∧
              kv.2.tags = k1.tags := by
          intro kv hkv
          obtain ⟨hh, k1, hcr, hn, ht⟩ := hent kv hkv
          exact ⟨hh, k1, createdBy_append calls kv.1 k1 k hcr, hn, ht⟩
        rcases hcases with hsame | ⟨m, m1, hm, hn, ht, hh, hst⟩ | ⟨m1, hm, hn, ht, hh, hst⟩
        · rw [hsame]
          exact ⟨hv1, hnd, hold⟩
        · refine ⟨hv1, ?_, ?_⟩
          · rw [hst, keys_mapStore_of_some _ _ m m1 hm]
            exact hnd
          · intro kv hkv
            rw [hst] at hkv
            rcases mem_mapStore _ _ _ _ hkv with heq | hin
            · obtain ⟨hh0, k1, hcr, hn0, ht0⟩ := hold (k.c, m) (mapLookup_some_mem _ _ _ hm)
              subst heq
              exact ⟨hh.trans hh0, k1, hcr, hn.trans hn0, ht.trans ht0⟩
            · exact hold kv hin
        · refine ⟨hv1, ?_, ?_⟩
          · rw [hst, mapStore_of_none _ _ _ hm]
            have hnotin := (mapLookup_eq_none_iff _ _).mp hm
            simp only [List.map_append, List.map_cons, List.map_nil]
            rw [List.nodup_append]
            refine ⟨hnd, List.nodup_singleton _, ?_⟩
            intro x hx hx1
            simp only [List.mem_singleton] at hx1
            subst hx1
            exact hnotin hx
          · intro kv hkv
            rw [hst] at hkv
            rcases mem_mapStore _ _ _ _ hkv with heq | hin
            · subst heq
              refine ⟨hh, k, ⟨calls, [], h, h3, rfl, rfl, hc, hm, hs, ?_⟩, hn, ht⟩
              rw [hst, mapLookup_mapStore]
              exact Option.some_ne_none _
            · exact hold kv hin

/-! ## Claims -/

/-- C1 (the code departs from the claim).  After the datagram `x:5|g` the
store holds the gauge `x`; a `Flush` at time 100 reports it and leaves the
store as it was, and a second `Flush` at time 115, with no sample in between,
reports the same entry again instead of an empty series. -/
theorem flush_twice_reports_entry_again :
    run_packet_handler initialHeap (ascii "x:5|g") = .ok (gaugeHeap five) ∧
    (flush (gaugeHeap five) 100).1 = .ok { series := [gaugeRecord 100 five] } ∧
    store (flush (gaugeHeap five) 100).2 = store (gaugeHeap five) ∧
    store (flush (gaugeHeap five) 100).2 ≠ [] ∧
    (flush (flush (gaugeHeap five) 100).2 115).1 = .ok { series := [gaugeRecord 115 five] } := by
  decide

/-- C2 (counterexample).  One counter sample of value `1.5` at rate `1.0`: the
quotient `v / rate` is `3/2`, and the point reported by the flush has the
value `1`. -/
theorem counter_fraction_counterexample :
    ParseFloat (ascii "1.5") = some onePointFive ∧
    onePointFive.toRat / Float64.one.toRat = 3 / 2 ∧
    (0 < Float64.one.toRat ∧ Float64.one.toRat ≤ 1) ∧
    (((newCounter (ascii "x") []).sampleAll [(ascii "1.5", Float64.one)]).flush 100 15).Points
      = [(100, Value.int64 1)] ∧
    ((1 : Int) : ℚ) ≠ 3 / 2 := by
  refine ⟨by decide, ?_, ⟨?_, ?_⟩, by decide, by norm_num⟩
  · norm_num [Float64.toRat, onePointFive, Float64.one]
  · norm_num [Float64.toRat, Float64.one]
  · norm_num [Float64.toRat, Float64.one]

/-- C2 (amended).  For every sequence of counter samples `(v_i, rate_i)` with
numeric `v_i` (`ParseFloat v_i = f_i`) applied to a new counter, the flush
reports exactly one point, `(timestamp, n)`, where `n` is the `int64` sum of
the terms `int64(f_i / rate_i)`: each quotient is taken in float64 and cut to
an integer before it is added. -/
theorem counter_flush_sum (name : Bytes) (tags : List Bytes) (samples : List (Bytes × Float64))
    (fs : List Float64) (timestamp interval : Int)
    (hnum : samples.map (fun s => ParseFloat s.1) = fs.map some) :
    (((newCounter name tags).sampleAll samples).flush timestamp interval).Points =
      [(timestamp, Value.int64 (wrap64
        (List.zipWith (fun f s => (Float64.div f s.2).toInt64) fs samples).sum))] := by
  have h := counter.sampleAll_count samples (newCounter name tags) fs hnum rfl
  have h0 : (newCounter name tags).count = 0 := rfl
  rw [h0, Int.zero_add] at h
  simp only [counter.flush, h]

/-- C2 (witness): value 5 twice at rate 1.0 gives 10. -/
theorem counter_flush_sum_witness :
    [(ascii "5", Float64.one), (ascii "5", Float64.one)].map (fun s => ParseFloat s.1)
      = [five, five].map some ∧
    (((newCounter (ascii "x") []).sampleAll
        [(ascii "5", Float64.one), (ascii "5", Float64.one)]).flush 100 15).Points =
      [(100, Value.int64 10)] :=
  ⟨by decide,
   counter_flush_sum (ascii "x") [] [(ascii "5", Float64.one), (ascii "5", Float64.one)]
     [five, five] 100 15 (by decide)⟩

/-- C3.  For every sequence of gauge samples that ends with a sample of
numeric value `v` (`ParseFloat v = f`), applied to a new gauge, the flush
reports exactly one point, `(timestamp, f)`: the samples before the last one
do not show in the output. -/
theorem gauge_flush_last (name : Bytes) (tags : List Bytes) (samples : List (Bytes × Float64))
    (v : Bytes) (rate : Float64) (f : Float64) (timestamp interval : Int)
    (hlast : ParseFloat v = some f) :
    (((newGauge name tags).sampleAll (samples ++ [(v, rate)])).flush timestamp interval).Points =
      [(timestamp, Value.float64 f)] := by
  simp [gauge.sampleAll, List.foldl_append, gauge.sample, hlast, gauge.flush]

/-- C3 (witness): values 5 then 9 flush only 9. -/
theorem gauge_flush_last_witness :
    ParseFloat (ascii "9") = some nine ∧
    (((newGauge (ascii "x") []).sampleAll
        ([(ascii "5", Float64.one)] ++ [(ascii "9", Float64.one)])).flush 100 15).Points =
      [(100, Value.float64 nine)] :=
  ⟨by decide,
   gauge_flush_last (ascii "x") [] [(ascii "5", Float64.one)] (ascii "9") Float64.one nine
     100 15 (by decide)⟩

/-- C4.  For every sequence of set samples applied to a new set, the flush
reports exactly one point, whose value is the number of distinct raw values
of the sequence, whatever the sample rates and the repetitions. -/
theorem set_flush_distinct (name : Bytes) (tags : List Bytes) (samples : List (Bytes × Float64))
    (timestamp interval : Int) :
    (((newSet name tags).sampleAll samples).flush timestamp interval).Points =
      [(timestamp, Value.int ((samples.map Prod.fst).toFinset.card : Int))] := by
  obtain ⟨hnd, hmem⟩ := set.sampleAll_values samples (newSet name tags) (by simp [newSet])
  have hset : ((newSet name tags).sampleAll samples).values.toFinset
      = (samples.map Prod.fst).toFinset := by
    ext x
    simp only [List.mem_toFinset]
    rw [hmem x]
    simp [newSet]
  have hlen : (((newSet name tags).sampleAll samples).values.length : Int)
      = ((samples.map Prod.fst).toFinset.card : Int) := by
    rw [← hset, List.toFinset_card_of_nodup hnd]
  simp only [set.flush, hlen]

/-- C5.  Two lines of the grammar with the same metric name and with tag lists
that are permutations of each other (whatever their values, type codes and
rate tokens) are parsed to the same `Context`: its `Metric_name` is the name
and its `Tag_string` the sorted tags joined by commas.  So both lines look up
the same entry of the store. -/
theorem permuted_tags_same_context (name value1 value2 type1 type2 : Bytes)
    (rate1 rate2 : Option Bytes) (tags1 tags2 : List Bytes)
    (hperm : tags1.Perm tags2)
    (hname : SEMI_COLON ∉ name)
    (hvalue1 : PIPE_SEP ∉ value1) (hvalue2 : PIPE_SEP ∉ value2)
    (htype1 : PIPE_SEP ∉ type1) (htype2 : PIPE_SEP ∉ type2)
    (hrate1 : PIPE_SEP ∉ rate1.getD []) (hrate2 : PIPE_SEP ∉ rate2.getD [])
    (htags : ∀ t ∈ tags1, PIPE_SEP ∉ t ∧ COMA ∉ t) :
    ∃ k1 k2 : SampleCall,
      parse_metric_packet_call (metricLine name value1 type1 rate1 tags1) = .ok k1 ∧
      parse_metric_packet_call (metricLine name value2 type2 rate2 tags2) = .ok k2 ∧
      k1.c = k2.c ∧
      k1.c = { Metric_name := name, Tag_string := Join (sort_Strings tags1) (ascii ",") } ∧
      ∀ h : Heap, mapLookup (store h) k1.c = mapLookup (store h) k2.c := by
  have htags2 : ∀ t ∈ tags2, PIPE_SEP ∉ t ∧ COMA ∉ t :=
    fun t ht => htags t (hperm.mem_iff.mpr ht)
  have h1 := parse_metric_packet_call_metricLine name value1 type1 rate1 tags1 hname hvalue1
    htype1 (not_mem_of_getD rate1 PIPE_SEP hrate1) htags
  have h2 := parse_metric_packet_call_metricLine name value2 type2 rate2 tags2 hname hvalue2
    htype2 (not_mem_of_getD rate2 PIPE_SEP hrate2) htags2
  have hs := sort_Strings_eq_of_perm tags1 tags2 hperm
  refine ⟨_, _, h1, h2, ?_, rfl, ?_⟩
  · simp only [hs]
  · intro h
    simp only [hs]

/-- C5 (witness): the tag lists `b,a` and `a,b` on the metric `x`. -/
theorem permuted_tags_same_context_witness :
    [ascii "b", ascii "a"].Perm [ascii "a", ascii "b"] ∧
    ∃ k1 k2 : SampleCall,
      parse_metric_packet_call (ascii "x:5|c|#b,a") = .ok k1 ∧
      parse_metric_packet_call (ascii "x:7|g|@0.5|#a,b") = .ok k2 ∧
      k1.c = k2.c ∧
      k1.c = { Metric_name := ascii "x", Tag_string := ascii "a,b" } ∧
      ∀ h : Heap, mapLookup (store h) k1.c = mapLookup (store h) k2.c :=
  ⟨List.Perm.swap _ _ _,
   permuted_tags_same_context (ascii "x") (ascii "5") (ascii "7") (ascii "c") (ascii "g")
     none (some (ascii "0.5")) [ascii "b", ascii "a"] [ascii "a", ascii "b"]
     (List.Perm.swap _ _ _) (by decide) (by decide) (by decide) (by decide) (by decide)
     (by decide) (by decide) (by decide)⟩

/-- C6.  For every line `name:value|type[|@rate][|#tag,...]` (name without
colon; value, type, rate text and tags without pipe; tags without comma; the
rate text a float `f`, and `f = 1.0` for a line without rate token),
`parse_metric_packet` calls `Sample_metric` with exactly that name, value,
type code and rate `f`, with the tags of the line in sorted order (a
permutation of them, and none for a line without tags), and with the context
made of the name and the sorted tags. -/
theorem parse_metric_packet_recovers (h : Heap) (name value metric_type : Bytes)
    (rate : Option Bytes) (tags : List Bytes) (f : Float64)
    (hname : SEMI_COLON ∉ name) (hvalue : PIPE_SEP ∉ value) (htype : PIPE_SEP ∉ metric_type)
    (hrate : PIPE_SEP ∉ rate.getD [])
    (htags : ∀ t ∈ tags, PIPE_SEP ∉ t ∧ COMA ∉ t)
    (hf : writtenRate rate = some f) :
    parse_metric_packet_call (metricLine name value metric_type rate tags) =
      .ok { c := { Metric_name := name, Tag_string := Join (sort_Strings tags) (ascii ",") }
            name := name
            tags := sort_Strings tags
            metric_type := metric_type
            raw_value := value
            sample_rate := f } ∧
    (sort_Strings tags).Perm tags ∧
    parse_metric_packet h (metricLine name value metric_type rate tags) =
      bucket_aggregator.Sample_metric h
        { Metric_name := name, Tag_string := Join (sort_Strings tags) (ascii ",") }
        name (sort_Strings tags) metric_type value f := by
  have h1 := parse_metric_packet_call_metricLine name value metric_type rate tags hname hvalue
    htype (not_mem_of_getD rate PIPE_SEP hrate) htags
  rw [rateOf_of_writtenRate rate f hf] at h1
  refine ⟨h1, sort_Strings_perm tags, ?_⟩
  simp only [parse_metric_packet, h1]

/-- C6 (witness): the line `x:5|c|@0.5|#b,a`. -/
theorem parse_metric_packet_recovers_witness :
    writtenRate (some (ascii "0.5")) = some half ∧
    parse_metric_packet_call (ascii "x:5|c|@0.5|#b,a") =
      .ok { c := { Metric_name := ascii "x", Tag_string := ascii "a,b" }
            name := ascii "x"
            tags := [ascii "a", ascii "b"]
            metric_type := ascii "c"
            raw_value := ascii "5"
            sample_rate := half } :=
  ⟨by decide,
   (parse_metric_packet_recovers initialHeap (ascii "x") (ascii "5") (ascii "c")
     (some (ascii "0.5")) [ascii "b", ascii "a"] half
     (by decide) (by decide) (by decide) (by decide) (by decide) (by decide)).1⟩

/-- C7 (the code departs from the claim).  `parse_metric_packet` panics with
an index out of range on the empty line, on a line without colon and on a
line with one field after the colon; the datagram `x:5|g` followed by a
newline ends in that panic although its first line is well formed. -/
theorem parse_metric_packet_panics :
    parse_metric_packet initialHeap [] = .error Fault.indexOutOfRange ∧
    parse_metric_packet initialHeap (ascii "abc") = .error Fault.indexOutOfRange ∧
    parse_metric_packet initialHeap (ascii "abc:5") = .error Fault.indexOutOfRange ∧
    run_packet_handler initialHeap (ascii "x:5|g\n") = .error Fault.indexOutOfRange := by
  decide

/-- C8 (the code departs from the claim).  On the empty store, `Sample_metric`
with the type code `zz` dereferences the nil pointer returned by
`CreateMetric` and panics; so does the line `x:5|zz`. -/
theorem Sample_metric_unknown_type_panics :
    bucket_aggregator.CreateMetric (ascii "x") [] (ascii "zz") ctxX
      = (none, some Err.unsupportedMetricType) ∧
    bucket_aggregator.Sample_metric initialHeap ctxX (ascii "x") [] (ascii "zz") (ascii "5")
      Float64.one = .error Fault.nilDereference ∧
    parse_metric_packet initialHeap (ascii "x:5|zz") = .error Fault.nilDereference := by
  decide

/-- C9 (counterexample).  The store holds the gauge `x` with value 5; the code
`zz` is not a recognised type code; `Sample_metric` on the context of `x`
with the code `zz` and the value `9` returns normally and the gauge then
holds 9, so its flush output differs from the one before the call. -/
theorem Sample_metric_existing_unknown_type_counterexample :
    mapLookup (store (gaugeHeap five)) ctxX
      = some (metric.gauge { name := ascii "x", tags := [], value := five }) ∧
    bucket_aggregator.CreateMetric (ascii "x") [] (ascii "zz") ctxX
      = (none, some Err.unsupportedMetricType) ∧
    bucket_aggregator.Sample_metric (gaugeHeap five) ctxX (ascii "x") [] (ascii "zz") (ascii "9")
      Float64.one = .ok (gaugeHeap nine) ∧
    (flush (gaugeHeap five) 100).1 = .ok { series := [gaugeRecord 100 five] } ∧
    (flush (gaugeHeap nine) 100).1 = .ok { series := [gaugeRecord 100 nine] } ∧
    gaugeRecord 100 five ≠ gaugeRecord 100 nine := by
  decide

/-- C9 (amended).  For every store that already holds an entry `m` for the
context `c`, `Sample_metric` on `c` does not consult the type code (nor the
name and tags): the call has the same result for every type code, recognised
or not.  It applies the `sample` of `m` to the raw value: when that returns an
error the heap is as before the call, when it returns no error the entry for
`c` is the sampled variant, and when it panics so does the call. -/
theorem Sample_metric_existing_ignores_type (h : Heap) (c : Context) (m : metric)
    (name name1 : Bytes) (tags tags1 : List Bytes) (metric_type metric_type1 raw_value : Bytes)
    (sample_rate : Float64)
    (hm : mapLookup (store h) c = some m) :
    bucket_aggregator.Sample_metric h c name tags metric_type raw_value sample_rate
      = bucket_aggregator.Sample_metric h c name1 tags1 metric_type1 raw_value sample_rate ∧
    (∀ m1 e, m.sample raw_value sample_rate = .ok (m1, some e) →
      bucket_aggregator.Sample_metric h c name tags metric_type raw_value sample_rate = .ok h) ∧
    (∀ m1, m.sample raw_value sample_rate = .ok (m1, none) →
      ∃ h1, bucket_aggregator.Sample_metric h c name tags metric_type raw_value sample_rate
          = .ok h1 ∧ mapLookup (store h1) c = some m1) ∧
    (∀ f, m.sample raw_value sample_rate = .error f →
      bucket_aggregator.Sample_metric h c name tags metric_type raw_value sample_rate
        = .error f) := by
  have hex := Aggregator.Sample_metric_existing bucket_aggregator h c m name tags metric_type
    raw_value sample_rate hm
  have hex1 := Aggregator.Sample_metric_existing bucket_aggregator h c m name1 tags1 metric_type1
    raw_value sample_rate hm
  refine ⟨by rw [hex, hex1], ?_, ?_, ?_⟩
  · intro m1 e hs
    exact Aggregator.Sample_metric_existing_error bucket_aggregator h c m m1 e name tags
      metric_type raw_value sample_rate hm hs
  · intro m1 hs
    refine ⟨_, by rw [hex, hs], ?_⟩
    have hlt := mapLookup_read_lt h _ c m hm
    simp only [store, Heap.read_write _ _ _ hlt, mapLookup_mapStore]
  · intro f hs
    rw [hex, hs]

/-- C9 (witness): the gauge `x` of value 5 sampled with the code `zz`. -/
theorem Sample_metric_existing_ignores_type_witness :
    mapLookup (store (gaugeHeap five)) ctxX
      = some (metric.gauge { name := ascii "x", tags := [], value := five }) ∧
    bucket_aggregator.Sample_metric (gaugeHeap five) ctxX (ascii "x") [] (ascii "zz") (ascii "9")
        Float64.one
      = bucket_aggregator.Sample_metric (gaugeHeap five) ctxX (ascii "x") [] (ascii "g")
        (ascii "9") Float64.one :=
  ⟨by decide,
   (Sample_metric_existing_ignores_type (gaugeHeap five) ctxX
      (metric.gauge { name := ascii "x", tags := [], value := five })
      (ascii "x") (ascii "x") [] [] (ascii "zz") (ascii "g") (ascii "9") Float64.one
      (by decide)).1⟩

/-- C10 (counterexample).  The line `x:abc|s` has the recognised type code `s`
and the value `abc`, which is not numeric; on the empty store it creates the
set `x` holding `abc`. -/
theorem non_numeric_set_value_counterexample :
    ParseFloat (ascii "abc") = none ∧
    store initialHeap = [] ∧
    parse_metric_packet initialHeap (ascii "x:abc|s") = .ok (setHeap [ascii "abc"]) ∧
    store (setHeap [ascii "abc"]) ≠ [] := by
  decide

/-- C10 (amended).  For every heap and every line with a recognised type code
(`g`, `c`, `h`, `ms`, `s`) whose value field is not numeric text, the line is
dropped with the heap unchanged, unless the sample goes to a set: that is,
provided the entry of the line's context, if there is one, is not a set, and
the type code is not `s` if there is none. -/
theorem non_numeric_value_dropped (h : Heap) (packet : Bytes) (k : SampleCall)
    (hk : parse_metric_packet_call packet = .ok k)
    (hval : ParseFloat k.raw_value = none)
    (htype : k.metric_type = ascii "g" ∨ k.metric_type = ascii "c" ∨ k.metric_type = ascii "h" ∨
      k.metric_type = ascii "ms" ∨ k.metric_type = ascii "s")
    (hnew : mapLookup (store h) k.c = none → k.metric_type ≠ ascii "s")
    (hold : ∀ st, mapLookup (store h) k.c ≠ some (metric.set st)) :
    parse_metric_packet h packet = .ok h := by
  simp only [parse_metric_packet, hk]
  cases hm : mapLookup (store h) k.c with
  | some m =>
    have hnotset : ∀ st, m ≠ metric.set st := fun st hst => hold st (by rw [hm, hst])
    obtain ⟨e, he⟩ := metric.sample_not_numeric m k.raw_value k.sample_rate hval hnotset
    exact Aggregator.Sample_metric_existing_error bucket_aggregator h k.c m m e k.name k.tags
      k.metric_type k.raw_value k.sample_rate hm he
  | none =>
    have hns := hnew hm
    have htype1 : k.metric_type = ascii "g" ∨ k.metric_type = ascii "c" ∨
        k.metric_type = ascii "h" ∨ k.metric_type = ascii "ms" := by
      rcases htype with h1 | h1 | h1 | h1 | h1
      · exact Or.inl h1
      · exact Or.inr (Or.inl h1)
      · exact Or.inr (Or.inr (Or.inl h1))
      · exact Or.inr (Or.inr (Or.inr h1))
      · exact absurd h1 hns
    obtain ⟨m, hc, hnotset⟩ := Aggregator.CreateMetric_numeric bucket_aggregator k.name k.tags
      k.metric_type k.c htype1
    obtain ⟨e, he⟩ := metric.sample_not_numeric m k.raw_value k.sample_rate hval hnotset
    have hm1 : mapLookup (h.read bucket_aggregator.metrics_by_context) k.c = none := hm
    simp only [Aggregator.Sample_metric, hm1, hc, he]

/-- C10 (witness): the line `x:abc|g` on the empty store. -/
theorem non_numeric_value_dropped_witness :
    ParseFloat (ascii "abc") = none ∧
    parse_metric_packet initialHeap (ascii "x:abc|g") = .ok initialHeap :=
  ⟨by decide,
   non_numeric_value_dropped initialHeap (ascii "x:abc|g")
     { c := ctxX, name := ascii "x", tags := [], metric_type := ascii "g",
       raw_value := ascii "abc", sample_rate := Float64.one }
     (by decide) (by decide) (by decide) (by decide)
     (fun st hst => by
       have hnone : mapLookup (store initialHeap) ctxX = none := by decide
       rw [hnone] at hst
       exact Option.noConfusion hst)⟩

/-- C11 (counterexample).  The line `x:1|c|@-0.5` is handed to `Sample_metric`
with the rate `-0.5` and creates the counter `x` with count `-2`; the line
`x:1|g|@0` is handed over with the rate `0` and creates the gauge `x`; the
line `x:|s`, whose value field is empty, creates the set `x` holding the
empty string. -/
theorem rate_and_empty_value_counterexample :
    (parse_metric_packet_call (ascii "x:1|c|@-0.5")).map (fun k => k.sample_rate)
      = .ok minusHalf ∧
    minusHalf.toRat ≤ 0 ∧
    store initialHeap = [] ∧
    parse_metric_packet initialHeap (ascii "x:1|c|@-0.5") = .ok (counterHeap (-2)) ∧
    (parse_metric_packet_call (ascii "x:1|g|@0")).map (fun k => k.sample_rate)
      = .ok Float64.zero ∧
    Float64.zero.toRat ≤ 0 ∧
    parse_metric_packet initialHeap (ascii "x:1|g|@0") = .ok (gaugeHeap Float64.one) ∧
    (parse_metric_packet_call (ascii "x:|s")).map (fun k => k.raw_value) = .ok [] ∧
    parse_metric_packet initialHeap (ascii "x:|s") = .ok (setHeap [[]]) := by
  refine ⟨by decide, ?_, by decide, by decide, by decide, ?_, by decide, by decide, by decide⟩
  · norm_num [Float64.toRat, minusHalf]
  · norm_num [Float64.toRat, Float64.zero]

/-- C11 (amended).  `parse_metric_packet` checks neither the sign of the rate
nor the value field: for every line of the grammar it calls `Sample_metric`
with the value as written and with the rate its `@` token parses to, also
when that rate is zero or negative (`1.0` for a line without the token or
with a token that is not a float).  A line with an empty value field leaves
the heap unchanged when its sample goes to a gauge, counter or histogram,
that is, when the entry of its context is not a set and, if there is no
entry, the type code is `g`, `c`, `h` or `ms`. -/
theorem rate_and_empty_value_unchecked (h : Heap) (name value metric_type : Bytes)
    (rate : Option Bytes) (tags : List Bytes)
    (hname : SEMI_COLON ∉ name) (hvalue : PIPE_SEP ∉ value) (htype : PIPE_SEP ∉ metric_type)
    (hrate : PIPE_SEP ∉ rate.getD [])
    (htags : ∀ t ∈ tags, PIPE_SEP ∉ t ∧ COMA ∉ t) :
    parse_metric_packet h (metricLine name value metric_type rate tags) =
      bucket_aggregator.Sample_metric h
        { Metric_name := name, Tag_string := Join (sort_Strings tags) (ascii ",") }
        name (sort_Strings tags) metric_type value (rateOf rate) ∧
    (value = [] →
      (mapLookup (store h)
          { Metric_name := name, Tag_string := Join (sort_Strings tags) (ascii ",") } = none →
        metric_type = ascii "g" ∨ metric_type = ascii "c" ∨ metric_type = ascii "h" ∨
          metric_type = ascii "ms") →
      (∀ st, mapLookup (store h)
          { Metric_name := name, Tag_string := Join (sort_Strings tags) (ascii ",") }
            ≠ some (metric.set st)) →
      parse_metric_packet h (metricLine name value metric_type rate tags) = .ok h) := by
  have h1 := parse_metric_packet_call_metricLine name value metric_type rate tags hname hvalue
    htype (not_mem_of_getD rate PIPE_SEP hrate) htags
  have h2 : parse_metric_packet h (metricLine name value metric_type rate tags) =
      bucket_aggregator.Sample_metric h
        { Metric_name := name, Tag_string := Join (sort_Strings tags) (ascii ",") }
        name (sort_Strings tags) metric_type value (rateOf rate) := by
    simp only [parse_metric_packet, h1]
  refine ⟨h2, ?_⟩
  intro hempty hnew hold
  rw [h2]
  exact Aggregator.Sample_metric_not_numeric bucket_aggregator h _ name (sort_Strings tags)
    metric_type value (rateOf rate) (by rw [hempty]; exact ParseFloat_nil) hnew hold

/-- C11 (witness): the line `x:1|c|@-0.5` is sampled at the rate `-0.5`, and
the line `x:|g`, whose value field is empty, leaves the empty store as it
is. -/
theorem rate_and_empty_value_unchecked_witness :
    rateOf (some (ascii "-0.5")) = minusHalf ∧
    parse_metric_packet initialHeap (ascii "x:1|c|@-0.5") =
      bucket_aggregator.Sample_metric initialHeap ctxX (ascii "x") [] (ascii "c") (ascii "1")
        minusHalf ∧
    parse_metric_packet initialHeap (ascii "x:|g") = .ok initialHeap :=
  ⟨by decide,
   (rate_and_empty_value_unchecked initialHeap (ascii "x") (ascii "1") (ascii "c")
     (some (ascii "-0.5")) [] (by decide) (by decide) (by decide) (by decide) (by decide)).1,
   (rate_and_empty_value_unchecked initialHeap (ascii "x") [] (ascii "g") none []
     (by decide) (by decide) (by decide) (by decide) (by decide)).2 rfl
     (fun _ => Or.inl rfl)
     (fun st hst => by
       have hnone : mapLookup (store initialHeap) ctxX = none := by decide
       have hst1 : mapLookup (store initialHeap) ctxX = some (metric.set st) := hst
       rw [hnone] at hst1
       exact Option.noConfusion hst1)⟩

/-- C12.  For every line of the grammar whose `@` token has a text `r` that is
not a float, `parse_metric_packet` still calls `Sample_metric`, with the
name, value, type code and tags of the line and with the sample rate `1.0`. -/
theorem unparsable_rate_defaults_to_one (h : Heap) (name value metric_type r : Bytes)
    (tags : List Bytes)
    (hname : SEMI_COLON ∉ name) (hvalue : PIPE_SEP ∉ value) (htype : PIPE_SEP ∉ metric_type)
    (hr : PIPE_SEP ∉ r)
    (htags : ∀ t ∈ tags, PIPE_SEP ∉ t ∧ COMA ∉ t)
    (hbad : ParseFloat r = none) :
    parse_metric_packet_call (metricLine name value metric_type (some r) tags) =
      .ok { c := { Metric_name := name, Tag_string := Join (sort_Strings tags) (ascii ",") }
            name := name
            tags := sort_Strings tags
            metric_type := metric_type
            raw_value := value
            sample_rate := Float64.one } ∧
    parse_metric_packet h (metricLine name value metric_type (some r) tags) =
      bucket_aggregator.Sample_metric h
        { Metric_name := name, Tag_string := Join (sort_Strings tags) (ascii ",") }
        name (sort_Strings tags) metric_type value Float64.one := by
  have h1 := parse_metric_packet_call_metricLine name value metric_type (some r) tags hname
    hvalue htype (not_mem_of_getD (some r) PIPE_SEP (by simpa using hr)) htags
  have hone : rateOf (some r) = Float64.one := by simp [rateOf, hbad]
  rw [hone] at h1
  refine ⟨h1, ?_⟩
  simp only [parse_metric_packet, h1]

/-- C12 (witness): the line `x:5|c|@abc` adds 5 to the counter `x`, as at rate
`1.0`. -/
theorem unparsable_rate_defaults_to_one_witness :
    ParseFloat (ascii "abc") = none ∧
    parse_metric_packet initialHeap (ascii "x:5|c|@abc") =
      bucket_aggregator.Sample_metric initialHeap ctxX (ascii "x") [] (ascii "c") (ascii "5")
        Float64.one ∧
    parse_metric_packet initialHeap (ascii "x:5|c|@abc") = .ok (counterHeap 5) :=
  ⟨by decide,
   (unparsable_rate_defaults_to_one initialHeap (ascii "x") (ascii "5") (ascii "c") (ascii "abc")
     [] (by decide) (by decide) (by decide) (by decide) (by decide) (by decide)).2,
   by decide⟩

/-- C13 (the code departs from the claim).  The value `5` is numeric and the
rate `0.5` lies in (0,1], so the claim has the count of a new histogram go
from 0 to 2; the call `sample` for them does not return: it panics with an
index out of range, and so do a sequence that starts with that sample and
the line `x:5|h|@0.5` on the empty store. -/
theorem histogram_count_sample_panics :
    ParseFloat (ascii "5") = some five ∧
    ParseFloat (ascii "0.5") = some half ∧
    (0 < half.toRat ∧ half.toRat ≤ 1) ∧
    (newHistogram (ascii "x") []).count = 0 ∧
    (newHistogram (ascii "x") []).sample (ascii "5") half = .error Fault.indexOutOfRange ∧
    (newHistogram (ascii "x") []).sampleAll [(ascii "5", half), (ascii "5", Float64.one)]
      = .error Fault.indexOutOfRange ∧
    parse_metric_packet initialHeap (ascii "x:5|h|@0.5") = .error Fault.indexOutOfRange := by
  refine ⟨by decide, by decide, ⟨?_, ?_⟩, rfl, by decide, by decide, by decide⟩
  · norm_num [Float64.toRat, half]
  · norm_num [Float64.toRat, half]

/-- C14 (the code departs from the claim).  The first numeric sample on a new
histogram writes at index `len(m.samples)` of a slice of length 0 and panics
with an index out of range; so do the lines `x:5|h` and `x:5|ms` on the empty
store.  No value is ever held by the buffer. -/
theorem histogram_sample_panics :
    (newHistogram (ascii "x") []).samples = [] ∧
    setIndex (newHistogram (ascii "x") []).samples
      (newHistogram (ascii "x") []).samples.length five = .error Fault.indexOutOfRange ∧
    (newHistogram (ascii "x") []).sample (ascii "5") Float64.one
      = .error Fault.indexOutOfRange ∧
    (newHistogram (ascii "x") []).sampleAll [(ascii "5", Float64.one)]
      = .error Fault.indexOutOfRange ∧
    parse_metric_packet initialHeap (ascii "x:5|h") = .error Fault.indexOutOfRange ∧
    parse_metric_packet initialHeap (ascii "x:5|ms") = .error Fault.indexOutOfRange := by
  decide

/-- C15 (the code departs from the claim).  The line
`login.latency:120|ms|@0.1` on the empty store panics in `histogram.sample`,
also as the second line of the datagram that starts with
`page.views:1|c|#env:prod`; and `histogram.flush` returns the zero value of
`formattedMetric` for the histogram `login.latency` with count 10 and the
buffered value 120: a record without name, tags, points or count. -/
theorem histogram_flush_reports_nothing :
    parse_metric_packet initialHeap (ascii "login.latency:120|ms|@0.1")
      = .error Fault.indexOutOfRange ∧
    run_packet_handler initialHeap
      (ascii "page.views:1|c|#env:prod\nlogin.latency:120|ms|@0.1")
      = .error Fault.indexOutOfRange ∧
    latencyHistogram.flush 100 15 =
      { Metric := [], Points := [], Tags := [], Host := [], Metric_type := [], Interval := 0 } ∧
    (latencyHistogram.flush 100 15).Metric ≠ ascii "login.latency" ∧
    (metric.histogram latencyHistogram).flush 100 15 = latencyHistogram.flush 100 15 := by
  decide

/-- C16.  For every store reached from the program start by a sequence of
calls of `Sample_metric` that return, the series that `Flush` builds is the
list of the flush records of the store's entries, one per entry (in the
iteration order of the map), the store has one entry per context, and it is
the series of the payload when `Flush` returns one.  The record of each entry
carries the name and the tags of the call that created the entry of its
context, exactly one point, stamped with the flush timestamp, and the type
label `gauge` or `counter`. -/
theorem flush_series_one_record_per_context (calls : List SampleCall) (h : Heap)
    (timestamp : Int)
    (hreach : sampleCalls initialHeap calls = .ok h) :
    bucket_aggregator.to_flush h timestamp
      = (store h).map (fun kv => kv.2.flush timestamp 15) ∧
    ((store h).map Prod.fst).Nodup ∧
    (∀ p, (flush h timestamp).1 = .ok p → p.series = bucket_aggregator.to_flush h timestamp) ∧
    ∀ kv ∈ store h, ∃ k v, createdBy calls kv.1 k ∧
      (kv.2.flush timestamp 15).Metric = k.name ∧
      (kv.2.flush timestamp 15).Tags = k.tags ∧
      (kv.2.flush timestamp 15).Points = [(timestamp, v)] ∧
      ((kv.2.flush timestamp 15).Metric_type = ascii "gauge" ∨
        (kv.2.flush timestamp 15).Metric_type = ascii "counter") := by
  obtain ⟨_, hnd, hent⟩ := reachable_store_inv calls h hreach
  refine ⟨Aggregator.to_flush_eq_map bucket_aggregator h timestamp, hnd,
    fun p hp => Aggregator.Flush_ok_series bucket_aggregator h timestamp p hp, ?_⟩
  intro kv hkv
  obtain ⟨hh, k, hcr, hn, ht⟩ := hent kv hkv
  obtain ⟨hfn, hft, ⟨v, hfp⟩, hfty⟩ := metric.flush_shape kv.2 timestamp 15 hh
  exact ⟨k, v, hcr, hfn.trans hn, hft.trans ht, hfp, hfty⟩

/-- C16 (witness): after the call made for the line `x:5|g` the series is the
one record of the gauge `x`, which carries the name and tags of a call that
created its entry. -/
theorem flush_series_one_record_per_context_witness :
    sampleCalls initialHeap
      [{ c := ctxX, name := ascii "x", tags := [], metric_type := ascii "g",
         raw_value := ascii "5", sample_rate := Float64.one }] = .ok (gaugeHeap five) ∧
    bucket_aggregator.to_flush (gaugeHeap five) 100 = [gaugeRecord 100 five] ∧
    ∃ k v, createdBy
        [{ c := ctxX, name := ascii "x", tags := [], metric_type := ascii "g",
           raw_value := ascii "5", sample_rate := Float64.one }] ctxX k ∧
      (gaugeRecord 100 five).Metric = k.name ∧
      (gaugeRecord 100 five).Tags = k.tags ∧
      (gaugeRecord 100 five).Points = [(100, v)] ∧
      ((gaugeRecord 100 five).Metric_type = ascii "gauge" ∨
        (gaugeRecord 100 five).Metric_type = ascii "counter") :=
  ⟨by decide,
   (flush_series_one_record_per_context
     [{ c := ctxX, name := ascii "x", tags := [], metric_type := ascii "g",
        raw_value := ascii "5", sample_rate := Float64.one }] (gaugeHeap five) 100
     (by decide)).1,
   (flush_series_one_record_per_context
     [{ c := ctxX, name := ascii "x", tags := [], metric_type := ascii "g",
        raw_value := ascii "5", sample_rate := Float64.one }] (gaugeHeap five) 100
     (by decide)).2.2.2
     (ctxX, metric.gauge { name := ascii "x", tags := [], value := five }) (by decide)⟩

/-- C18.  A line that begins with the two bytes `_e` is skipped by the loop of
`run_packet_handler` without a call of `parse_metric_packet`: the heap goes
on to the next line as it is, and a datagram made of that line alone leaves
the heap unchanged.  A line that does not begin with `_e` is passed to
`parse_metric_packet`, whose heap goes on to the next line (or whose panic
ends the loop). -/
theorem event_lines_skipped (h : Heap) (tail other : Bytes) (rest : List Bytes)
    (hother : ¬ (ascii "_e" <+: other)) :
    handle_lines h ((ascii "_e" ++ tail) :: rest) = handle_lines h rest ∧
    (NEWLINE_SEP ∉ tail → run_packet_handler h (ascii "_e" ++ tail) = .ok h) ∧
    handle_lines h (other :: rest) =
      (match parse_metric_packet h other with
        | .error f => .error f
        | .ok h1 => handle_lines h1 rest) := by
  have hev : HasPrefix (ascii "_e" ++ tail) EVENT_PREFIX = true :=
    (HasPrefix_EVENT_PREFIX _).mpr (List.prefix_append _ _)
  have hno : ¬ (HasPrefix other EVENT_PREFIX = true) :=
    fun hp => hother ((HasPrefix_EVENT_PREFIX _).mp hp)
  refine ⟨?_, ?_, ?_⟩
  · simp only [handle_lines, hev, if_true]
  · intro hnl
    have hline : NEWLINE_SEP ∉ ascii "_e" ++ tail := by
      have h2 : NEWLINE_SEP ∉ ascii "_e" := by decide
      simp only [List.mem_append, not_or]
      exact ⟨h2, hnl⟩
    simp only [run_packet_handler, Split_not_mem _ NEWLINE_SEP hline, handle_lines, hev, if_true]
  · have hno1 : HasPrefix other EVENT_PREFIX = false := by
      cases hp : HasPrefix other EVENT_PREFIX
      · rfl
      · exact absurd hp hno
    simp only [handle_lines, hno1, Bool.false_eq_true, if_false]

/-- C18 (witness): the datagram `_errors:1|c` leaves the empty store as it is,
and the line `x:5|g` is parsed. -/
theorem event_lines_skipped_witness :
    ¬ (ascii "_e" <+: ascii "x:5|g") ∧
    run_packet_handler initialHeap (ascii "_errors:1|c") = .ok initialHeap ∧
    handle_lines initialHeap [ascii "x:5|g"] =
      (match parse_metric_packet initialHeap (ascii "x:5|g") with
        | .error f => .error f
        | .ok h1 => handle_lines h1 []) :=
  ⟨by decide,
   (event_lines_skipped initialHeap (ascii "rrors:1|c") (ascii "x:5|g") [] (by decide)).2.1
     (by decide),
   (event_lines_skipped initialHeap (ascii "rrors:1|c") (ascii "x:5|g") [] (by decide)).2.2⟩

/-- C19.  For a gauge and for a counter, `sample` returns an error exactly when
the value text is not a float, and then the struct is as before the call.
So `Sample_metric` with such a value, on a context without entry and with the
type code `g` or `c`, returns with the heap unchanged: no entry is added. -/
theorem gauge_counter_sample_error (g : gauge) (k : counter) (value : Bytes) (rate : Float64)
    (h : Heap) (c : Context) (name : Bytes) (tags : List Bytes) (metric_type : Bytes)
    (hunseen : mapLookup (store h) c = none)
    (htype : metric_type = ascii "g" ∨ metric_type = ascii "c") :
    ((g.sample value rate).2 ≠ none ↔ ParseFloat value = none) ∧
    ((g.sample value rate).2 ≠ none → (g.sample value rate).1 = g) ∧
    ((k.sample value rate).2 ≠ none ↔ ParseFloat value = none) ∧
    ((k.sample value rate).2 ≠ none → (k.sample value rate).1 = k) ∧
    (ParseFloat value = none →
      bucket_aggregator.Sample_metric h c name tags metric_type value rate = .ok h ∧
      mapLookup (store h) c = none) := by
  refine ⟨?_, ?_, ?_, ?_, ?_⟩
  · cases hp : ParseFloat value <;> simp [gauge.sample, hp]
  · cases hp : ParseFloat value <;> simp [gauge.sample, hp]
  · cases hp : ParseFloat value <;> simp [counter.sample, hp]
  · cases hp : ParseFloat value <;> simp [counter.sample, hp]
  · intro hval
    refine ⟨?_, hunseen⟩
    apply Aggregator.Sample_metric_not_numeric bucket_aggregator h c name tags metric_type value
      rate hval
    · intro _
      rcases htype with h1 | h1
      · exact Or.inl h1
      · exact Or.inr (Or.inl h1)
    · intro st hst
      have hst1 : mapLookup (store h) c = some (metric.set st) := hst
      rw [hunseen] at hst1
      exact Option.noConfusion hst1

/-- C19 (witness): the value `abc` on the empty store, with the type code `c`. -/
theorem gauge_counter_sample_error_witness :
    mapLookup (store initialHeap) ctxX = none ∧
    ParseFloat (ascii "abc") = none ∧
    ((newGauge (ascii "x") []).sample (ascii "abc") Float64.one).2 ≠ none ∧
    bucket_aggregator.Sample_metric initialHeap ctxX (ascii "x") [] (ascii "c") (ascii "abc")
      Float64.one = .ok initialHeap :=
  ⟨by decide, by decide, by decide,
   ((gauge_counter_sample_error (newGauge (ascii "x") []) (newCounter (ascii "x") [])
      (ascii "abc") Float64.one initialHeap ctxX (ascii "x") [] (ascii "c") (by decide)
      (Or.inr rfl)).2.2.2.2 (by decide)).1⟩

/-- C20.  For every heap and every call of `Sample_metric` on a context `c`
that returns, the entries of the store for the contexts other than `c` are
the same, in the same order, before and after the call; so every context
`c1` other than `c` has the same entry, or none, before and after, and the
same flush output. -/
theorem Sample_metric_frame (h h1 : Heap) (c c1 : Context) (name : Bytes) (tags : List Bytes)
    (metric_type raw_value : Bytes) (sample_rate : Float64) (timestamp interval : Int)
    (hdone : bucket_aggregator.Sample_metric h c name tags metric_type raw_value sample_rate
      = .ok h1)
    (hne : c1 ≠ c) :
    (store h1).filter (fun kv => decide (kv.1 ≠ c))
      = (store h).filter (fun kv => decide (kv.1 ≠ c)) ∧
    mapLookup (store h1) c1 = mapLookup (store h) c1 ∧
    (mapLookup (store h1) c1).map (fun m => m.flush timestamp interval)
      = (mapLookup (store h) c1).map (fun m => m.flush timestamp interval) := by
  have hr := Aggregator.Sample_metric_read bucket_aggregator h h1 c name tags metric_type
    raw_value sample_rate hdone
  have hl : mapLookup (store h1) c1 = mapLookup (store h) c1 := by
    rcases hr with hr | ⟨m, hr⟩
    · simp only [store, hr]
    · simp only [store, hr, mapLookup_mapStore_other _ c c1 m hne]
  refine ⟨?_, hl, by rw [hl]⟩
  rcases hr with hr | ⟨m, hr⟩
  · simp only [store, hr]
  · simp only [store, hr, filter_mapStore]

/-- C20 (witness): with the gauge `x` in the store, a sample on the context of
the metric `y` leaves the entry of `x` as it is. -/
theorem Sample_metric_frame_witness :
    bucket_aggregator.Sample_metric (gaugeHeap five)
        { Metric_name := ascii "y", Tag_string := [] } (ascii "y") [] (ascii "c") (ascii "5")
        Float64.one
      = .ok { maps := [[(ctxX, metric.gauge { name := ascii "x", tags := [], value := five }),
          ({ Metric_name := ascii "y", Tag_string := [] },
            metric.counter { name := ascii "y", tags := [], count := 5 })]] } ∧
    mapLookup (store { maps := [[(ctxX, metric.gauge { name := ascii "x", tags := [], value := five }),
          ({ Metric_name := ascii "y", Tag_string := [] },
            metric.counter { name := ascii "y", tags := [], count := 5 })]] }) ctxX
      = mapLookup (store (gaugeHeap five)) ctxX :=
  ⟨by decide,
   (Sample_metric_frame (gaugeHeap five) _ { Metric_name := ascii "y", Tag_string := [] } ctxX
     (ascii "y") [] (ascii "c") (ascii "5") Float64.one 100 15 (by decide) (by decide)).2.1⟩

end GoDogstatsd
